import Mathlib

/-!
Verification of the ts-actions function-source-extraction and script-synthesis
engine against its natural-language specification.

The TypeScript sources are shallowly embedded: JavaScript strings are modelled
as Lean `String` (with the character-list machinery below standing in for the
JavaScript string methods used by the code), JavaScript exceptions as `Except`,
`null`/`undefined` as `Option`, and the file system / external processes as
explicit function parameters.
-/

set_option maxHeartbeats 1000000

namespace TsActions

/-! ## JavaScript string machinery

Models of the JavaScript string operations the sources use:
`String.prototype.includes`, `split("\n")`, `Array.prototype.join("\n")`,
number-to-string conversion, and character classification used by the
regular expressions in the sources. -/

/-- `listStartsWith hay needle`: `needle` is a prefix of `hay`. -/
def listStartsWith : List Char → List Char → Bool
  | _, [] => true
  | [], _ :: _ => false
  | a :: as, b :: bs => a == b && listStartsWith as bs

/-- `listContainsSub needle hay`: `needle` occurs as a contiguous substring of
`hay`.  Models `hay.includes(needle)`. -/
def listContainsSub (needle : List Char) : List Char → Bool
  | [] => listStartsWith [] needle
  | c :: t => listStartsWith (c :: t) needle || listContainsSub needle t

/-- JavaScript `s.includes(sub)`. -/
def strIncludes (s sub : String) : Bool := listContainsSub sub.data s.data

/-- JavaScript `s.split("\n")` on character lists: `"".split` gives `[""]`. -/
def splitOnNl : List Char → List (List Char)
  | [] => [[]]
  | c :: t =>
    if c = '\n' then [] :: splitOnNl t
    else match splitOnNl t with
      | [] => [[c]]
      | l :: ls => (c :: l) :: ls

/-- JavaScript `s.split("\n")`. -/
def jsSplitNl (s : String) : List String := (splitOnNl s.data).map fun cs => ⟨cs⟩

/-- JavaScript `array.join("\n")`. -/
def joinNl : List String → String
  | [] => ""
  | [s] => s
  | s :: rest => s ++ "\n" ++ joinNl rest

/-- Decimal digit character, used to model JavaScript number-to-string
conversion. -/
def decChar : Nat → Char
  | 0 => '0' | 1 => '1' | 2 => '2' | 3 => '3' | 4 => '4'
  | 5 => '5' | 6 => '6' | 7 => '7' | 8 => '8' | 9 => '9'
  | _ => '*'

/-- Character list of the decimal representation of a natural number,
most-significant digit first. -/
def decDigits (n : Nat) : List Char :=
  if n = 0 then ['0'] else ((Nat.digits 10 n).reverse.map decChar)

/-- JavaScript conversion of a (non-negative integral) number to a string,
as performed by template-literal interpolation and `String(n)`. -/
def jsNatToString (n : Nat) : String := ⟨decDigits n⟩

/-- JavaScript `String(x)` for an integral number (possibly negative). -/
def jsIntToString (i : Int) : String :=
  if i < 0 then "-" ++ jsNatToString i.natAbs else jsNatToString i.natAbs

/-- Whitespace as matched by the JavaScript `\s` character class (the
common cases appearing in source text). -/
def isJsWs (c : Char) : Bool :=
  c = ' ' || c = '\t' || c = '\n' || c = '\r' || c = '\x0c' || c = '\x0b'

/-- A character matched by the JavaScript `\w` class. -/
def isWordChar (c : Char) : Bool :=
  ('a' ≤ c && c ≤ 'z') || ('A' ≤ c && c ≤ 'Z') || ('0' ≤ c && c ≤ '9') || c = '_'

/-- A decimal digit (`\d`). -/
def isDigitChar (c : Char) : Bool := '0' ≤ c && c ≤ '9'

/-- Numeric value of a digit list, as computed by `Number.parseInt(s, 10)`
on an all-digit string. -/
def digitsVal (ds : List Char) : Nat :=
  ds.foldl (fun acc c => 10 * acc + (c.toNat - '0'.toNat)) 0

/-- JSON.stringify of a string value: quote and escape. -/
def jsonEscapeChar (c : Char) : List Char :=
  if c = '"' then ['\\', '"']
  else if c = '\\' then ['\\', '\\']
  else if c = '\n' then ['\\', 'n']
  else if c = '\r' then ['\\', 'r']
  else if c = '\t' then ['\\', 't']
  else [c]

/-- JavaScript `JSON.stringify` applied to a string. -/
def jsonStringifyStr (s : String) : String :=
  ⟨'"' :: (s.data.flatMap jsonEscapeChar) ++ ['"']⟩

/-! ## The `Step` data model (src/core/step.ts)

The current `Step` class of the repository: the builder holds a plain record
`step` (`IStep`), the action reference last passed to `uses`, and — for
function steps — the registered TypeScript function together with its
arguments, options and the stack trace captured at registration time. -/

/-- A primitive JavaScript value usable as a `with` input
(`string | number | boolean`). -/
inductive PrimVal where
  | s (v : String)
  | n (v : Int)
  | b (v : Bool)
deriving DecidableEq, Repr

/-- A step argument (`string | number | boolean | GitHubExpression`);
GitHub expressions are strings at runtime. -/
inductive ArgValue where
  | str (s : String)
  | num (n : Int)
  | bool (b : Bool)
deriving DecidableEq, Repr

/-- An opaque runtime function value: only its identity and its `name`
property are observable.  A JavaScript anonymous function has `name = ""`. -/
structure TypeScriptFn where
  fnId : Nat
  fnName : String
deriving DecidableEq, Repr

/-- `ITypeScriptStepOptions`. -/
structure TsStepOptions where
  nodeVersion : Option String := none
deriving DecidableEq, Repr

/-- The plain step record (`IStep`). `withInputs` models the `with` field. -/
structure IStep where
  id : Option String := none
  name : Option String := none
  uses : Option String := none
  run : Option String := none
  withInputs : Option (List (String × PrimVal)) := none
  env : Option (List (String × String)) := none
  ifCond : Option String := none
  continueOnError : Option Bool := none
  timeoutMinutes : Option Nat := none
  workingDirectory : Option String := none
deriving DecidableEq, Repr

/-- JavaScript object spread `{ ...a, ...b }` on string-keyed records:
keys of `a` in order (values overridden by `b` where present), then the
keys of `b` not present in `a`, in order. -/
def objMerge {α : Type} (a b : List (String × α)) : List (String × α) :=
  (a.map fun p => match b.find? (fun q => q.1 == p.1) with
    | some q => (p.1, q.2)
    | none => p) ++ b.filter (fun q => !(a.any (fun p => p.1 == q.1)))

/-- `IActionClassType`: an action class value carrying its reference string. -/
structure ActionClass where
  reference : String
deriving DecidableEq, Repr

/-- Builder state of the `Step` class. -/
structure StepState where
  step : IStep := {}
  currentActionRef : Option String := none
  typescriptFunction : Option TypeScriptFn := none
  typescriptArgs : List ArgValue := []
  typescriptOptions : Option TsStepOptions := none
  typescriptStackTrace : Option String := none
deriving DecidableEq, Repr

/-- `new Step()`. -/
def stepNew : StepState := {}

namespace Step

/-- `Step.id`. -/
def setId (s : StepState) (v : String) : StepState :=
  { s with step.id := some v }

/-- `Step.name`. -/
def setName (s : StepState) (v : String) : StepState :=
  { s with step.name := some v }

/-- `Step.uses`: records the action reference and clears `run`
("a step cannot have both uses and run"). -/
def uses (s : StepState) (action : ActionClass) : StepState :=
  { s with
    step.uses := some action.reference
    step.run := none
    currentActionRef := some action.reference }

/-- `Step.run`: records the command and clears `uses`, `with` and any
registered function. -/
def run (s : StepState) (command : String) : StepState :=
  { s with
    step.run := some command
    currentActionRef := none
    step.uses := none
    step.withInputs := none
    typescriptFunction := none
    typescriptArgs := [] }

/-- `Step.runTypeScript` after the options/arguments overload has been
resolved (the overload resolution itself only splits the JavaScript argument
list and is not modelled): registers the function, its arguments, options and
captured stack trace, and clears `run`, `uses` and `with`. -/
def runTypeScript (s : StepState) (fn : TypeScriptFn)
    (options : Option TsStepOptions) (args : List ArgValue)
    (stackTrace : Option String) : StepState :=
  { s with
    typescriptFunction := some fn
    typescriptArgs := args
    typescriptOptions := options
    typescriptStackTrace := stackTrace
    step.run := none
    step.uses := none
    step.withInputs := none
    currentActionRef := none }

/-- `Step.withInputs` / `Step.with` (input validation only emits console
warnings and does not change state). -/
def withInputs (s : StepState) (inputs : List (String × PrimVal)) : StepState :=
  { s with step.withInputs := some (objMerge (s.step.withInputs.getD []) inputs) }

/-- `Step.env`. -/
def env (s : StepState) (vars : List (String × String)) : StepState :=
  { s with step.env := some (objMerge (s.step.env.getD []) vars) }

/-- `Step.continueOnError`. -/
def continueOnError (s : StepState) (v : Bool) : StepState :=
  { s with step.continueOnError := some v }

/-- `Step.timeoutMinutes`. -/
def timeoutMinutes (s : StepState) (minutes : Nat) : StepState :=
  { s with step.timeoutMinutes := some minutes }

/-- `Step.ifCondition` / `Step.if`. -/
def ifCondition (s : StepState) (condition : String) : StepState :=
  { s with step.ifCond := some condition }

/-- `Step.workingDirectory`. -/
def workingDirectory (s : StepState) (directory : String) : StepState :=
  { s with step.workingDirectory := some directory }

/-- `Step._getTypeScriptFunction`. -/
def getTypeScriptFunction (s : StepState) :
    Option (TypeScriptFn × List ArgValue × Option TsStepOptions × Option String) :=
  s.typescriptFunction.map fun fn =>
    (fn, s.typescriptArgs, s.typescriptOptions, s.typescriptStackTrace)

/-- `Step.toJSON`: throws if both `uses` and `run` are set (defensive check),
otherwise returns a copy of the record. -/
def toJSON (s : StepState) : Except String IStep :=
  if s.step.uses.isSome && s.step.run.isSome then
    .error "Invalid step: a step cannot have both uses and run properties."
  else
    .ok s.step

end Step

/-! ## Claim C1: at most one of `run` / `uses` -/

/-- One public builder operation on a `Step`. -/
inductive StepOp where
  | setId (v : String)
  | setName (v : String)
  | uses (action : ActionClass)
  | run (command : String)
  | runTypeScript (fn : TypeScriptFn) (options : Option TsStepOptions)
      (args : List ArgValue) (stackTrace : Option String)
  | withInputs (inputs : List (String × PrimVal))
  | env (vars : List (String × String))
  | continueOnError (v : Bool)
  | timeoutMinutes (minutes : Nat)
  | ifCondition (condition : String)
  | workingDirectory (directory : String)

/-- Apply one builder operation. -/
def applyOp (s : StepState) : StepOp → StepState
  | .setId v => Step.setId s v
  | .setName v => Step.setName s v
  | .uses a => Step.uses s a
  | .run c => Step.run s c
  | .runTypeScript fn o a st => Step.runTypeScript s fn o a st
  | .withInputs i => Step.withInputs s i
  | .env v => Step.env s v
  | .continueOnError v => Step.continueOnError s v
  | .timeoutMinutes m => Step.timeoutMinutes s m
  | .ifCondition c => Step.ifCondition s c
  | .workingDirectory d => Step.workingDirectory s d

/-- Apply a sequence of builder operations to a step. -/
def applyOps (s : StepState) (ops : List StepOp) : StepState :=
  ops.foldl applyOp s

/-- The at-most-one-of invariant on a step state. -/
def StepExclusive (s : StepState) : Prop :=
  s.step.uses = none ∨ s.step.run = none

theorem applyOp_exclusive (s : StepState) (op : StepOp)
    (h : StepExclusive s) : StepExclusive (applyOp s op) := by
  cases op with
  | uses a => exact Or.inr rfl
  | run c => exact Or.inl rfl
  | runTypeScript fn o a st => exact Or.inl rfl
  | setId v => exact h
  | setName v => exact h
  | withInputs i => exact h
  | env v => exact h
  | continueOnError v => exact h
  | timeoutMinutes m => exact h
  | ifCondition c => exact h
  | workingDirectory d => exact h

theorem applyOps_exclusive (s : StepState) (ops : List StepOp)
    (h : StepExclusive s) : StepExclusive (applyOps s ops) := by
  induction ops generalizing s with
  | nil => exact h
  | cons op rest ih => exact ih _ (applyOp_exclusive s op h)

/-- C1: after any sequence of `Step` builder operations started from
`new Step()`, at most one of the run command and the action reference is set;
`run()` clears a previously set `uses`/`with`, `uses()` clears a previously
set run command, and `toJSON()` succeeds and never yields a record carrying
both `run` and `uses`. -/
theorem step_run_uses_exclusive (ops : List StepOp) :
    (applyOps stepNew ops).step.uses = none ∨
      (applyOps stepNew ops).step.run = none :=
  applyOps_exclusive stepNew ops (Or.inl rfl)

/-- C1, remaining conjuncts packaged with the invariant: the clearing
behaviour of `run`/`uses` and the `toJSON` guarantee. -/
theorem step_at_most_one_of (ops : List StepOp) :
    ((applyOps stepNew ops).step.uses = none ∨
      (applyOps stepNew ops).step.run = none) ∧
    (Step.toJSON (applyOps stepNew ops) = .ok (applyOps stepNew ops).step) ∧
    (∀ (j : IStep), Step.toJSON (applyOps stepNew ops) = .ok j →
      ¬(j.uses.isSome ∧ j.run.isSome)) ∧
    (∀ (t : StepState) (cmd : String),
      (Step.run t cmd).step.uses = none ∧ (Step.run t cmd).step.withInputs = none) ∧
    (∀ (t : StepState) (a : ActionClass), (Step.uses t a).step.run = none) := by
  have hx := step_run_uses_exclusive ops
  refine ⟨hx, ?_, ?_, ?_, ?_⟩
  · unfold Step.toJSON
    rcases hx with h | h <;> simp [h]
  · intro j hj
    unfold Step.toJSON at hj
    rcases hx with h | h <;> simp [h] at hj <;> subst hj <;> simp [h]
  · intro t cmd; exact ⟨rfl, rfl⟩
  · intro t a; rfl

/-! ## Claim C9: the shell heredoc embedding
(src/synth/workflow-processor.ts, `wrapJavaScriptForShell`) -/

/-- `wrapJavaScriptForShell`: wrap JavaScript code in a `node` heredoc with a
fixed single-quoted delimiter. -/
def wrapJavaScriptForShell (jsCode : String) : String :=
  let delimiter := "TS_ACTIONS_EOF"
  "node << \x27" ++ delimiter ++ "\x27\n" ++ jsCode ++ "\n" ++ delimiter

/-- C9: for every script text `s`, the shell embedding is exactly the line
`node << 'TS_ACTIONS_EOF'`, followed by `s` verbatim, followed by the line
`TS_ACTIONS_EOF`. -/
theorem wrapJavaScriptForShell_spec (s : String) :
    wrapJavaScriptForShell s =
      "node << \x27TS_ACTIONS_EOF\x27\n" ++ s ++ "\nTS_ACTIONS_EOF" ∧
    (wrapJavaScriptForShell s).data =
      "node << \x27TS_ACTIONS_EOF\x27\n".data ++ s.data ++ "\nTS_ACTIONS_EOF".data := by
  constructor
  · apply String.ext
    simp [wrapJavaScriptForShell]
  · simp [wrapJavaScriptForShell]

/-! ## The argument marshaler (src/synth/argument-processor.ts)

`isGitHubExpression` tests the regular expression `\$\{\{\s*[^}]+\s*\}\}`
against a string.  Since `\s` never matches `}`, the regex matches at a
position exactly when the text reads `${{`, then a non-empty run of
characters other than `}`, immediately followed by `}}`; the test succeeds
when some position of the string matches. -/

/-- One anchored attempt of `GITHUB_EXPRESSION_REGEX` at the head of the
character list. -/
def githubExprMatchAt : List Char → Bool
  | '$' :: '{' :: '{' :: rest =>
    let t := rest.takeWhile (fun c => c ≠ '}')
    let r := rest.drop t.length
    !t.isEmpty &&
      (match r with
       | '}' :: '}' :: _ => true
       | _ => false)
  | _ => false

/-- `GITHUB_EXPRESSION_REGEX.test` on a character list (leftmost scan). -/
def githubExprTest : List Char → Bool
  | [] => false
  | c :: cs => githubExprMatchAt (c :: cs) || githubExprTest cs

/-- `isGitHubExpression`: only strings can be GitHub expressions, and the
regex `/\$\{\{\s*[^}]+\s*\}\}/` must match. -/
def isGitHubExpression : ArgValue → Bool
  | .str s => githubExprTest s.data
  | _ => false

/-- Target language of the generated code. -/
inductive Lang where
  | typescript
  | python
deriving DecidableEq, Repr

/-- `serializeArgument`: literal serialization per target language. -/
def serializeArgument (arg : ArgValue) (language : Lang) : String :=
  match arg with
  | .str s => jsonStringifyStr s
  | .num n => jsIntToString n
  | .bool b =>
    match language with
    | .typescript => if b then "true" else "false"
    | .python => if b then "True" else "False"

/-- `ENV_VAR_CLEANUP_REGEX` replacement: any character outside `[A-Z0-9_]`
becomes `_`. -/
def envVarCleanupChar (c : Char) : Char :=
  if ('A' ≤ c && c ≤ 'Z') || ('0' ≤ c && c ≤ '9') || c = '_' then c else '_'

/-- JavaScript `s.toUpperCase()`. -/
def jsToUpperStr (s : String) : String := ⟨s.data.map Char.toUpper⟩

/-- JavaScript `s.replace(ENV_VAR_CLEANUP_REGEX, "_")`. -/
def envVarCleanup (s : String) : String := ⟨s.data.map envVarCleanupChar⟩

/-- The environment-variable name allocated for the deferred argument at a
zero-based index: `` `GITHUB_EXPR_${index}`.toUpperCase().replace(...) ``. -/
def envVarName (index : Nat) : String :=
  envVarCleanup (jsToUpperStr ("GITHUB_EXPR_" ++ jsNatToString index))

/-- JavaScript `array.join(", ")`. -/
def joinComma : List String → String
  | [] => ""
  | [s] => s
  | s :: rest => s ++ ", " ++ joinComma rest

/-- `processGitHubExpression`: the runtime-read expression for a deferred
argument (read the env var, fall back to the raw expression text). -/
def processGitHubExpression (expression : String) (index : Nat) (language : Lang) : String :=
  let nm := envVarName index
  match language with
  | .typescript => "process.env." ++ nm ++ " || " ++ jsonStringifyStr expression
  | .python => "os.environ.get(" ++ jsonStringifyStr nm ++ ", " ++ jsonStringifyStr expression ++ ")"

/-- The raw text of an argument when it is a string (GitHub expressions are
strings; other arguments are never deferred). -/
def argStr : ArgValue → String
  | .str s => s
  | .num n => jsIntToString n
  | .bool b => if b then "true" else "false"

/-- `processArguments`: map each argument to its code string, threading the
zero-based index (`args.map((arg, index) => ...)`). -/
def processArgumentsFrom (language : Lang) (index : Nat) : List ArgValue → List String
  | [] => []
  | arg :: rest =>
    (if isGitHubExpression arg then processGitHubExpression (argStr arg) index language
     else serializeArgument arg language) :: processArgumentsFrom language (index + 1) rest

/-- `processArguments(args, language)`. -/
def processArguments (args : List ArgValue) (language : Lang) : List String :=
  processArgumentsFrom language 0 args

/-- The lines pushed by `generateEnvVarCode`'s `forEach` loop (TypeScript
branch), threading the zero-based index. -/
def genEnvVarLinesTsFrom (index : Nat) : List ArgValue → List String
  | [] => []
  | arg :: rest =>
    if isGitHubExpression arg then
      ("const " ++ envVarName index ++ " = process.env." ++ envVarName index ++
        " || " ++ jsonStringifyStr (argStr arg) ++ ";") :: genEnvVarLinesTsFrom (index + 1) rest
    else genEnvVarLinesTsFrom (index + 1) rest

/-- The lines pushed by `generateEnvVarCode`'s `forEach` loop (Python
branch). -/
def genEnvVarLinesPyFrom (index : Nat) : List ArgValue → List String
  | [] => []
  | arg :: rest =>
    if isGitHubExpression arg then
      (envVarName index ++ " = os.environ.get(" ++ jsonStringifyStr (envVarName index) ++
        ", " ++ jsonStringifyStr (argStr arg) ++ ")") :: genEnvVarLinesPyFrom (index + 1) rest
    else genEnvVarLinesPyFrom (index + 1) rest

/-- `generateEnvVarCode(args, language)`: the declarations prepended to the
generated script, one per deferred argument. -/
def generateEnvVarCode (args : List ArgValue) (language : Lang) : String :=
  match language with
  | .typescript => joinNl (genEnvVarLinesTsFrom 0 args)
  | .python => joinNl ("import os" :: genEnvVarLinesPyFrom 0 args)

/-! `getFunctionIdentifier` (argument-processor.ts): regex scans
`/(?:async\s+)?function\s+(\w+)/` and `/const\s+(\w+)\s*=\s*(?:async\s*)?\(/`.
Each regex is modelled by an anchored matcher (the decompositions are unique,
see the comments) and a leftmost scan over start positions. -/

/-- Strip a literal from the head of the list. -/
def stripLit : List Char → List Char → Option (List Char)
  | [], cs => some cs
  | _ :: _, [] => none
  | l :: ls, c :: cs => if l = c then stripLit ls cs else none

/-- `\s+` (maximal run; since every follower in the patterns below is not
whitespace, the maximal run is the only viable one). -/
def ws1 (cs : List Char) : Option (List Char) :=
  let w := cs.takeWhile isJsWs
  if w.isEmpty then none else some (cs.drop w.length)

/-- `\s*` (maximal run, same remark). -/
def ws0 (cs : List Char) : List Char := cs.dropWhile isJsWs

/-- `(\w+)` capture (maximal run; a shorter run would have to be followed
by a word character, which the patterns below never accept). -/
def word1 (cs : List Char) : Option (List Char × List Char) :=
  let w := cs.takeWhile isWordChar
  if w.isEmpty then none else some (w, cs.drop w.length)

/-- Leftmost-match scan of an anchored matcher over all start positions. -/
def scanMatch {α : Type} (f : List Char → Option α) : List Char → Option α
  | [] => f []
  | c :: cs => f (c :: cs) <|> scanMatch f cs

/-- Anchored `/(?:async\s+)?function\s+(\w+)/` (the greedy optional group is
tried first, as the regex engine does). -/
def funcDeclMatchAtP16 (cs : List Char) : Option (List Char) :=
  let core := fun (r : List Char) => do
    let r ← stripLit "function".data r
    let r ← ws1 r
    let (w, _) ← word1 r
    pure w
  (do
    let r ← stripLit "async".data cs
    let r ← ws1 r
    core r) <|> core cs

/-- Anchored `/const\s+(\w+)\s*=\s*(?:async\s*)?\(/`. -/
def arrowMatchAtP16 (cs : List Char) : Option (List Char) := do
  let r ← stripLit "const".data cs
  let r ← ws1 r
  let (w, r) ← word1 r
  let r := ws0 r
  let r ← stripLit "=".data r
  let r := ws0 r
  (do
    let r2 ← stripLit "async".data r
    let r2 := ws0 r2
    let _ ← stripLit "(".data r2
    pure w) <|> (do
    let _ ← stripLit "(".data r
    pure w)

/-- `getFunctionIdentifier` (argument-processor.ts): extract the callable's
identifier from its source text, or wrap the anonymous source. -/
def getFunctionIdentifier (source : String) : String :=
  match scanMatch funcDeclMatchAtP16 source.data with
  | some w => ⟨w⟩
  | none =>
    match scanMatch arrowMatchAtP16 source.data with
    | some w => ⟨w⟩
    | none => "(function() \x7b return " ++ source ++ "; \x7d)()"

/-- `generateFunctionCallCode`: the invoke/print/exit driver around the
function source. -/
def generateFunctionCallCode (functionSource : String) (processedArgs : List String)
    (language : Lang) : String :=
  match language with
  | .typescript =>
    "\n" ++ functionSource ++
    "\n\n// Execute the function\n(async () => \x7b\n  try \x7b\n    const result = await (" ++
    getFunctionIdentifier functionSource ++ "(" ++ joinComma processedArgs ++
    "));\n    if (result !== undefined) \x7b\n      console.log(result);\n    \x7d\n    process.exit(0);\n  \x7d catch (error) \x7b\n    console.error(\"Error executing function:\", error);\n    if (error instanceof Error) \x7b\n      console.error(\"Stack trace:\", error.stack);\n    \x7d\n    process.exit(1);\n  \x7d\n\x7d)();\n" ++ ""
  | .python =>
    "\n" ++ functionSource ++
    "\n\n# Execute the function\ntry:\n    result = " ++
    getFunctionIdentifier functionSource ++ "(" ++ joinComma processedArgs ++
    ")\n    if result is not None:\n        print(result)\n    exit(0)\nexcept Exception as e:\n    print(f\"Error executing function: \x7be\x7d\", file=sys.stderr)\n    import traceback\n    traceback.print_exc()\n    exit(1)\n"

/-! ## Claim C3: env-var allocation facts -/

/-- Zero-based indices of the deferred (GitHub-expression) arguments. -/
def deferredIndicesFrom (index : Nat) : List ArgValue → List Nat
  | [] => []
  | arg :: rest =>
    if isGitHubExpression arg then index :: deferredIndicesFrom (index + 1) rest
    else deferredIndicesFrom (index + 1) rest

/-- Zero-based indices of the deferred arguments of an argument list. -/
def deferredIndices (args : List ArgValue) : List Nat := deferredIndicesFrom 0 args

/-- The environment-variable names allocated by argument marshaling, in
allocation order. -/
def allocatedEnvVarNames (args : List ArgValue) : List String :=
  (deferredIndices args).map envVarName

theorem decChar_inj : ∀ d1, d1 < 10 → ∀ d2, d2 < 10 → decChar d1 = decChar d2 → d1 = d2 := by
  decide

theorem cleanupUpper_decChar :
    ∀ d, d < 10 → (envVarCleanupChar ∘ Char.toUpper) (decChar d) = decChar d := by
  decide

theorem mapDecChar_inj : ∀ (l1 l2 : List Nat), (∀ d ∈ l1, d < 10) →
    (∀ d ∈ l2, d < 10) → l1.map decChar = l2.map decChar → l1 = l2 := by
  intro l1
  induction l1 with
  | nil => intro l2 _ _ h; cases l2 with
    | nil => rfl
    | cons b t => simp at h
  | cons a t ih =>
    intro l2 h1 h2 h
    cases l2 with
    | nil => simp at h
    | cons b t2 =>
      simp only [List.map_cons, List.cons.injEq] at h
      have hab : a = b :=
        decChar_inj a (h1 a (List.mem_cons_self a t)) b (h2 b (List.mem_cons_self b t2)) h.1
      have ht : t = t2 := ih t2 (fun d hd => h1 d (List.mem_cons_of_mem _ hd))
        (fun d hd => h2 d (List.mem_cons_of_mem _ hd)) h.2
      rw [hab, ht]

theorem jsNatToString_injective : Function.Injective jsNatToString := by
  intro n m h
  have hdata : decDigits n = decDigits m := congrArg String.data h
  by_cases hn : n = 0 <;> by_cases hm : m = 0
  · rw [hn, hm]
  · exfalso
    rw [decDigits, decDigits, if_pos hn, if_neg hm] at hdata
    have hrev : (Nat.digits 10 m).reverse = [0] :=
      mapDecChar_inj _ _
        (fun d hd => Nat.digits_lt_base (by norm_num) (List.mem_reverse.mp hd))
        (by intro d hd; simp at hd; omega) (by exact hdata.symm)
    have hdig : Nat.digits 10 m = [0] := by
      have := congrArg List.reverse hrev
      simpa using this
    have hofd := Nat.ofDigits_digits 10 m
    rw [hdig] at hofd
    simp [Nat.ofDigits] at hofd
    exact hm hofd.symm
  · exfalso
    rw [decDigits, decDigits, if_neg hn, if_pos hm] at hdata
    have hrev : (Nat.digits 10 n).reverse = [0] :=
      mapDecChar_inj _ _
        (fun d hd => Nat.digits_lt_base (by norm_num) (List.mem_reverse.mp hd))
        (by intro d hd; simp at hd; omega) (by exact hdata)
    have hdig : Nat.digits 10 n = [0] := by
      have := congrArg List.reverse hrev
      simpa using this
    have hofd := Nat.ofDigits_digits 10 n
    rw [hdig] at hofd
    simp [Nat.ofDigits] at hofd
    exact hn hofd.symm
  · rw [decDigits, decDigits, if_neg hn, if_neg hm] at hdata
    have hrev : (Nat.digits 10 n).reverse = (Nat.digits 10 m).reverse :=
      mapDecChar_inj _ _
        (fun d hd => Nat.digits_lt_base (by norm_num) (List.mem_reverse.mp hd))
        (fun d hd => Nat.digits_lt_base (by norm_num) (List.mem_reverse.mp hd)) hdata
    have hdig : Nat.digits 10 n = Nat.digits 10 m := by
      have := congrArg List.reverse hrev
      simpa using this
    exact Nat.digits.injective 10 hdig

theorem decDigits_digits_lt (n : Nat) : ∀ c ∈ decDigits n, ∃ d, d < 10 ∧ c = decChar d := by
  intro c hc
  unfold decDigits at hc
  by_cases h0 : n = 0
  · simp [h0] at hc
    exact ⟨0, by norm_num, hc⟩
  · simp [h0, List.mem_map, List.mem_reverse] at hc
    obtain ⟨d, hd, rfl⟩ := hc
    exact ⟨d, Nat.digits_lt_base (by norm_num) hd, rfl⟩

theorem envVarName_eq (n : Nat) :
    envVarName n = "GITHUB_EXPR_" ++ jsNatToString n := by
  apply String.ext
  simp only [envVarName, envVarCleanup, jsToUpperStr, String.data_append, List.map_map]
  have hpre : List.map (envVarCleanupChar ∘ Char.toUpper) "GITHUB_EXPR_".data
      = "GITHUB_EXPR_".data := by decide
  calc List.map (envVarCleanupChar ∘ Char.toUpper)
        ("GITHUB_EXPR_".data ++ (jsNatToString n).data)
      = List.map (envVarCleanupChar ∘ Char.toUpper) "GITHUB_EXPR_".data ++
          List.map (envVarCleanupChar ∘ Char.toUpper) (jsNatToString n).data := by
        rw [List.map_append]
    _ = "GITHUB_EXPR_".data ++ (jsNatToString n).data := by
        rw [hpre]
        congr 1
        have : ∀ c ∈ (jsNatToString n).data,
            (envVarCleanupChar ∘ Char.toUpper) c = id c := by
          intro c hc
          obtain ⟨d, hd, rfl⟩ := decDigits_digits_lt n c hc
          exact cleanupUpper_decChar d hd
        rw [List.map_congr_left this, List.map_id]

theorem envVarName_injective : Function.Injective envVarName := by
  intro a b h
  rw [envVarName_eq, envVarName_eq] at h
  have hd : ("GITHUB_EXPR_" ++ jsNatToString a).data =
      ("GITHUB_EXPR_" ++ jsNatToString b).data := congrArg String.data h
  simp only [String.data_append] at hd
  have := List.append_cancel_left hd
  exact jsNatToString_injective (String.ext this)

/-- The `(index, argument)` pairs of the deferred arguments. -/
def deferredPairsFrom (index : Nat) : List ArgValue → List (Nat × ArgValue)
  | [] => []
  | arg :: rest =>
    if isGitHubExpression arg then (index, arg) :: deferredPairsFrom (index + 1) rest
    else deferredPairsFrom (index + 1) rest

theorem deferredIndicesFrom_eq_pairs (i : Nat) (args : List ArgValue) :
    deferredIndicesFrom i args = (deferredPairsFrom i args).map Prod.fst := by
  induction args generalizing i with
  | nil => rfl
  | cons a rest ih =>
    simp only [deferredIndicesFrom, deferredPairsFrom]
    by_cases h : isGitHubExpression a = true <;> simp [h, ih]

theorem deferredIndicesFrom_length (i : Nat) (args : List ArgValue) :
    (deferredIndicesFrom i args).length =
      (args.filter (fun a => isGitHubExpression a)).length := by
  induction args generalizing i with
  | nil => rfl
  | cons a rest ih =>
    simp only [deferredIndicesFrom, List.filter]
    by_cases h : isGitHubExpression a = true <;> simp [h, ih]

theorem deferredIndicesFrom_le (i : Nat) (args : List ArgValue) :
    ∀ x ∈ deferredIndicesFrom i args, i ≤ x := by
  induction args generalizing i with
  | nil => intro x hx; simp [deferredIndicesFrom] at hx
  | cons a rest ih =>
    intro x hx
    simp only [deferredIndicesFrom] at hx
    by_cases h : isGitHubExpression a = true
    · simp [h] at hx
      rcases hx with rfl | hx
      · exact le_refl x
      · exact Nat.le_of_succ_le (ih (i + 1) x hx)
    · simp [h] at hx
      exact Nat.le_of_succ_le (ih (i + 1) x hx)

theorem deferredIndicesFrom_sorted (i : Nat) (args : List ArgValue) :
    (deferredIndicesFrom i args).Pairwise (· < ·) := by
  induction args generalizing i with
  | nil => exact List.Pairwise.nil
  | cons a rest ih =>
    simp only [deferredIndicesFrom]
    by_cases h : isGitHubExpression a = true
    · simp only [h, if_true]
      refine List.Pairwise.cons ?_ (ih (i + 1))
      intro x hx
      exact Nat.lt_of_succ_le (deferredIndicesFrom_le (i + 1) rest x hx)
    · simp only [h, if_false]
      exact ih (i + 1)

theorem genEnvVarLinesTsFrom_eq (i : Nat) (args : List ArgValue) :
    genEnvVarLinesTsFrom i args = (deferredPairsFrom i args).map (fun p =>
      "const " ++ envVarName p.1 ++ " = process.env." ++ envVarName p.1 ++
        " || " ++ jsonStringifyStr (argStr p.2) ++ ";") := by
  induction args generalizing i with
  | nil => rfl
  | cons a rest ih =>
    simp only [genEnvVarLinesTsFrom, deferredPairsFrom]
    by_cases h : isGitHubExpression a = true <;> simp [h, ih]

/-- C3: for every argument list, marshaling allocates exactly one
environment-variable name per deferred (GitHub-expression) argument — the
name `GITHUB_EXPR_` + the argument's zero-based index — so there are exactly
`N` names for `N` deferred arguments, they are pairwise distinct, their order
matches argument position (the allocated index list is strictly increasing),
literal arguments allocate none, and `generateEnvVarCode` emits exactly one
declaration line per allocated name. -/
theorem marshal_env_allocation (args : List ArgValue) :
    (allocatedEnvVarNames args).length =
      (args.filter (fun a => isGitHubExpression a)).length ∧
    (allocatedEnvVarNames args).Nodup ∧
    allocatedEnvVarNames args = (deferredIndices args).map envVarName ∧
    (∀ i ∈ deferredIndices args, envVarName i = "GITHUB_EXPR_" ++ jsNatToString i) ∧
    (deferredIndices args).Pairwise (· < ·) ∧
    genEnvVarLinesTsFrom 0 args = (deferredPairsFrom 0 args).map (fun p =>
      "const " ++ envVarName p.1 ++ " = process.env." ++ envVarName p.1 ++
        " || " ++ jsonStringifyStr (argStr p.2) ++ ";") ∧
    (genEnvVarLinesTsFrom 0 args).length = (allocatedEnvVarNames args).length ∧
    generateEnvVarCode args .typescript = joinNl (genEnvVarLinesTsFrom 0 args) := by
  have hsorted := deferredIndicesFrom_sorted 0 args
  have hnodup : (deferredIndices args).Nodup := by
    unfold deferredIndices
    exact List.Pairwise.imp Nat.ne_of_lt hsorted
  refine ⟨?_, ?_, rfl, ?_, hsorted, genEnvVarLinesTsFrom_eq 0 args, ?_, rfl⟩
  · unfold allocatedEnvVarNames deferredIndices
    rw [List.length_map]
    exact deferredIndicesFrom_length 0 args
  · exact List.Nodup.map envVarName_injective hnodup
  · intro i _
    exact envVarName_eq i
  · unfold allocatedEnvVarNames deferredIndices
    rw [genEnvVarLinesTsFrom_eq 0 args, deferredIndicesFrom_eq_pairs 0 args]
    simp

/-! ## The setup-requirement detector (src/synth/setup-detector.ts) -/

/-- A job: the step instances it owns. -/
structure JobState where
  steps : List StepState
deriving DecidableEq, Repr

/-- A workflow: its jobs (iteration order of the job map). -/
structure WorkflowState where
  jobs : List JobState
deriving DecidableEq, Repr

/-- JavaScript `x || dflt` on an optional string (the empty string is
falsy). -/
def jsOrStr (v : Option String) (dflt : String) : String :=
  match v with
  | some s => if s = "" then dflt else s
  | none => dflt

/-- One iteration of the `getNodeSetupRequirement` loop: a function step
turns the requirement on and overwrites the requested version
(`tsFunction.options?.nodeVersion || "24"`). -/
def nodeReqStep (acc : Bool × String) (step : StepState) : Bool × String :=
  match Step.getTypeScriptFunction step with
  | some (_, _, options, _) =>
    (true, jsOrStr (options.bind TsStepOptions.nodeVersion) "24")
  | none => acc

/-- `getNodeSetupRequirement`: scan the job's steps with `needsNode = false`
and `nodeVersion = "24"` as initial state. -/
def getNodeSetupRequirement (stepInstances : List StepState) : Bool × String :=
  stepInstances.foldl nodeReqStep (false, "24")

/-- `hasSetupNode`: some step's JSON `uses` contains `actions/setup-node`
(`toJSON` may throw on an invalid step; the exception propagates). -/
def hasSetupNode : List StepState → Except String Bool
  | [] => .ok false
  | step :: rest =>
    match Step.toJSON step with
    | .error e => .error e
    | .ok stepJson =>
      if (match stepJson.uses with
          | some u => strIncludes u "actions/setup-node"
          | none => false) then
        .ok true
      else hasSetupNode rest

/-- The setup step built by `createSetupSteps`. -/
def setupNodeStep (nodeVersion : String) : StepState :=
  Step.withInputs
    (Step.uses (Step.setName stepNew "Setup Node.js") ⟨"actions/setup-node@v4"⟩)
    [("node-version", .s nodeVersion)]

/-- `createSetupSteps`. -/
def createSetupSteps (needsNode jobHasSetupNode : Bool) (nodeVersion : String) :
    List StepState :=
  if needsNode && !jobHasSetupNode then [setupNodeStep nodeVersion] else []

/-- The per-job body of `addSetupActionsToWorkflow`'s loop: compute the
requirement, check for an existing setup step, and prepend the created
steps when any. -/
def processJobSetup (steps : List StepState) : Except String (List StepState) :=
  match hasSetupNode steps with
  | .error e => .error e
  | .ok jobHas =>
    if (createSetupSteps (getNodeSetupRequirement steps).1 jobHas
        (getNodeSetupRequirement steps).2).length > 0 then
      .ok (createSetupSteps (getNodeSetupRequirement steps).1 jobHas
        (getNodeSetupRequirement steps).2 ++ steps)
    else .ok steps

/-- The job loop of `addSetupActionsToWorkflow`. -/
def addSetupJobs : List JobState → Except String (List JobState)
  | [] => .ok []
  | job :: rest =>
    match processJobSetup job.steps with
    | .error e => .error e
    | .ok steps =>
      match addSetupJobs rest with
      | .error e => .error e
      | .ok rest => .ok (⟨steps⟩ :: rest)

/-- `addSetupActionsToWorkflow` (the in-place mutation of the job list is
modelled functionally; a thrown `toJSON` error surfaces as `.error`). -/
def addSetupActionsToWorkflow (w : WorkflowState) : Except String WorkflowState :=
  (addSetupJobs w.jobs).map WorkflowState.mk

/-! ## Claim C4: idempotence of `addSetupActionsToWorkflow` -/

theorem hasSetupNode_setup_cons (v : String) (steps : List StepState) :
    hasSetupNode (setupNodeStep v :: steps) = .ok true := rfl

theorem processJobSetup_eq_ok (steps : List StepState) (b : Bool)
    (hhas : hasSetupNode steps = .ok b) :
    processJobSetup steps =
      if (createSetupSteps (getNodeSetupRequirement steps).1 b
          (getNodeSetupRequirement steps).2).length > 0 then
        .ok (createSetupSteps (getNodeSetupRequirement steps).1 b
          (getNodeSetupRequirement steps).2 ++ steps)
      else .ok steps := by
  unfold processJobSetup
  rw [hhas]

theorem createSetupSteps_sat (needs : Bool) (v : String) :
    createSetupSteps needs true v = [] := by
  unfold createSetupSteps
  simp

theorem processJobSetup_idempotent (steps steps' : List StepState)
    (h : processJobSetup steps = .ok steps') :
    processJobSetup steps' = .ok steps' := by
  cases hhas : hasSetupNode steps with
  | error e =>
    unfold processJobSetup at h
    rw [hhas] at h
    simp at h
  | ok b =>
    rw [processJobSetup_eq_ok steps b hhas] at h
    by_cases hcond : ((getNodeSetupRequirement steps).1 && !b) = true
    · have hcreate : createSetupSteps (getNodeSetupRequirement steps).1 b
          (getNodeSetupRequirement steps).2 =
          [setupNodeStep (getNodeSetupRequirement steps).2] := by
        unfold createSetupSteps
        rw [if_pos hcond]
      rw [hcreate] at h
      simp at h
      subst h
      -- Second run on the prepended list: the requirement scan ignores the
      -- setup step (it carries no function), while `hasSetupNode` finds it.
      rw [processJobSetup_eq_ok _ true (hasSetupNode_setup_cons _ _)]
      have hreq : getNodeSetupRequirement
          (setupNodeStep (getNodeSetupRequirement steps).2 :: steps) =
          getNodeSetupRequirement steps := rfl
      rw [hreq, createSetupSteps_sat]
      simp
    · have hcreate : createSetupSteps (getNodeSetupRequirement steps).1 b
          (getNodeSetupRequirement steps).2 = [] := by
        unfold createSetupSteps
        rw [if_neg hcond]
      rw [hcreate] at h
      simp at h
      subst h
      rw [processJobSetup_eq_ok steps b hhas, hcreate]
      simp

theorem addSetupJobs_idempotent (l js : List JobState)
    (h : addSetupJobs l = .ok js) : addSetupJobs js = .ok js := by
  induction l generalizing js with
  | nil =>
    unfold addSetupJobs at h
    simp at h
    subst h
    rfl
  | cons j rest ih =>
    unfold addSetupJobs at h
    cases hstep : processJobSetup j.steps with
    | error e => rw [hstep] at h; simp at h
    | ok s' =>
      rw [hstep] at h
      cases hrest : addSetupJobs rest with
      | error e => rw [hrest] at h; simp at h
      | ok rs =>
        rw [hrest] at h
        simp at h
        subst h
        have h1 := processJobSetup_idempotent _ _ hstep
        have h2 := ih rs hrest
        unfold addSetupJobs
        rw [show ({ steps := s' } : JobState).steps = s' from rfl, h1, h2]

/-- C4: `addSetupActionsToWorkflow` is idempotent — a second run on the
result of a successful first run changes nothing: once a job contains a step
whose `uses` matches `actions/setup-node`, nothing is prepended. -/
theorem addSetupActionsToWorkflow_idempotent (w w' : WorkflowState)
    (h : addSetupActionsToWorkflow w = .ok w') :
    addSetupActionsToWorkflow w' = .ok w' := by
  unfold addSetupActionsToWorkflow at h ⊢
  cases hjobs : addSetupJobs w.jobs with
  | error e => rw [hjobs] at h; simp [Except.map] at h
  | ok js =>
    rw [hjobs] at h
    simp only [Except.map] at h
    have hw' : w' = ⟨js⟩ := by
      cases h; rfl
    subst hw'
    have hsuf : addSetupJobs js = .ok js := addSetupJobs_idempotent w.jobs js hjobs
    rw [show (⟨js⟩ : WorkflowState).jobs = js from rfl, hsuf]
    rfl

/-- C4 witness: a workflow with one job holding one function step; the first
run prepends a setup step, the second run (by the theorem) changes nothing. -/
theorem addSetupActionsToWorkflow_idempotent_witness :
    addSetupActionsToWorkflow
        ⟨[⟨[Step.runTypeScript stepNew ⟨0, "f"⟩ none [] none]⟩]⟩ =
      .ok ⟨[⟨[setupNodeStep "24",
        Step.runTypeScript stepNew ⟨0, "f"⟩ none [] none]⟩]⟩ ∧
    addSetupActionsToWorkflow
        ⟨[⟨[setupNodeStep "24",
          Step.runTypeScript stepNew ⟨0, "f"⟩ none [] none]⟩]⟩ =
      .ok ⟨[⟨[setupNodeStep "24",
        Step.runTypeScript stepNew ⟨0, "f"⟩ none [] none]⟩]⟩ :=
  ⟨by rfl,
   addSetupActionsToWorkflow_idempotent
     ⟨[⟨[Step.runTypeScript stepNew ⟨0, "f"⟩ none [] none]⟩]⟩
     ⟨[⟨[setupNodeStep "24", Step.runTypeScript stepNew ⟨0, "f"⟩ none [] none]⟩]⟩
     (by rfl)⟩

/-! ## Claim C5: setup injection for a job requesting runtime version "20" -/

theorem foldl_nodeReqStep_none (l : List StepState) (acc : Bool × String)
    (h : ∀ s ∈ l, s.typescriptFunction = none) :
    l.foldl nodeReqStep acc = acc := by
  induction l generalizing acc with
  | nil => rfl
  | cons s rest ih =>
    have hs : s.typescriptFunction = none := h s (List.mem_cons_self s rest)
    have hstep : nodeReqStep acc s = acc := by
      unfold nodeReqStep Step.getTypeScriptFunction
      rw [hs]
      rfl
    rw [List.foldl_cons, hstep]
    exact ih acc (fun t ht => h t (List.mem_cons_of_mem _ ht))

theorem getNodeSetupRequirement_single_fn (pre post : List StepState)
    (fnStep : StepState) (o : TsStepOptions)
    (hpre : ∀ s ∈ pre, s.typescriptFunction = none)
    (hpost : ∀ s ∈ post, s.typescriptFunction = none)
    (hfn : fnStep.typescriptFunction.isSome)
    (hopt : fnStep.typescriptOptions = some o)
    (hver : o.nodeVersion = some "20") :
    getNodeSetupRequirement (pre ++ fnStep :: post) = (true, "20") := by
  unfold getNodeSetupRequirement
  rw [List.foldl_append, foldl_nodeReqStep_none pre _ hpre, List.foldl_cons]
  obtain ⟨fn, hfneq⟩ := Option.isSome_iff_exists.mp hfn
  have hstep : nodeReqStep (false, "24") fnStep = (true, "20") := by
    unfold nodeReqStep Step.getTypeScriptFunction
    rw [hfneq, hopt]
    simp [hver, jsOrStr]
  rw [hstep]
  exact foldl_nodeReqStep_none post _ hpost

/-- C5: a job whose steps are exactly one function step requesting runtime
version "20" (plus steps carrying no function), with no pre-existing setup
step, gets `setupNodeStep "20"` — named "Setup Node.js", using
`actions/setup-node@v4` with `node-version = "20"` — prepended as its first
step; all original steps follow unchanged in their original order, and a
single-job workflow around it transforms accordingly. -/
theorem setup_injection_node20 (pre post : List StepState) (fnStep : StepState)
    (o : TsStepOptions)
    (hpre : ∀ s ∈ pre, s.typescriptFunction = none)
    (hpost : ∀ s ∈ post, s.typescriptFunction = none)
    (hfn : fnStep.typescriptFunction.isSome)
    (hopt : fnStep.typescriptOptions = some o)
    (hver : o.nodeVersion = some "20")
    (hnosetup : hasSetupNode (pre ++ fnStep :: post) = .ok false) :
    processJobSetup (pre ++ fnStep :: post) =
      .ok (setupNodeStep "20" :: (pre ++ fnStep :: post)) ∧
    addSetupActionsToWorkflow ⟨[⟨pre ++ fnStep :: post⟩]⟩ =
      .ok ⟨[⟨setupNodeStep "20" :: (pre ++ fnStep :: post)⟩]⟩ ∧
    (setupNodeStep "20").step.name = some "Setup Node.js" ∧
    (setupNodeStep "20").step.uses = some "actions/setup-node@v4" ∧
    (setupNodeStep "20").step.withInputs = some [("node-version", .s "20")] ∧
    (setupNodeStep "20").step.run = none := by
  have hreq := getNodeSetupRequirement_single_fn pre post fnStep o hpre hpost hfn hopt hver
  have hjob : processJobSetup (pre ++ fnStep :: post) =
      .ok (setupNodeStep "20" :: (pre ++ fnStep :: post)) := by
    rw [processJobSetup_eq_ok _ false hnosetup, hreq]
    simp [createSetupSteps]
  refine ⟨hjob, ?_, rfl, rfl, rfl, rfl⟩
  unfold addSetupActionsToWorkflow addSetupJobs
  rw [show ({ steps := pre ++ fnStep :: post } : JobState).steps =
    pre ++ fnStep :: post from rfl, hjob]
  rfl

/-- C5 witness: a job with a plain run step followed by one function step
requesting node version "20". -/
theorem setup_injection_node20_witness :
    processJobSetup
        [Step.run stepNew "npm test",
         Step.runTypeScript stepNew ⟨1, "f"⟩ (some ⟨some "20"⟩) [] none] =
      .ok (setupNodeStep "20" ::
        [Step.run stepNew "npm test",
         Step.runTypeScript stepNew ⟨1, "f"⟩ (some ⟨some "20"⟩) [] none]) := by
  have h := setup_injection_node20
    [Step.run stepNew "npm test"] []
    (Step.runTypeScript stepNew ⟨1, "f"⟩ (some ⟨some "20"⟩) [] none)
    ⟨some "20"⟩
    (by intro s hs; simp at hs; subst hs; rfl)
    (by intro s hs; simp at hs)
    (by rfl)
    (by rfl)
    (by rfl)
    (by rfl)
  exact h.1

/-! ## The function extractor (src/synth/function-extractor.ts)

The parsed TypeScript syntax tree is embedded as `TsNode`: the node kinds the
extractor inspects (call expressions whose callee is a property access named
`runTypeScript`, function declarations, arrow functions, function
expressions, variable declarations — the parent kind the arrow-function
fallback looks at) plus a catch-all.  Every node carries its 1-based start
line (`getLineAndCharacterOfPosition(node.getStart()).line + 1`) and the
child list traversed by `ts.forEachChild`; for a call expression the
children are its arguments. -/

inductive TsNode where
  /-- A call expression; `calleeRunTS` is true when the callee is a property
  access expression whose name is `runTypeScript`. -/
  | callExpr (calleeRunTS : Bool) (line : Nat) (args : List TsNode)
  /-- A function declaration with an optional name. -/
  | funcDecl (name : Option String) (line : Nat) (children : List TsNode)
  | arrowFn (line : Nat) (children : List TsNode)
  | funcExpr (line : Nat) (children : List TsNode)
  /-- A variable declaration; `varName` is its name when that name is a
  plain identifier. -/
  | varDecl (varName : Option String) (line : Nat) (children : List TsNode)
  | plain (line : Nat) (children : List TsNode)
deriving Repr

/-- The 1-based start line of a node. -/
def nodeLine : TsNode → Nat
  | .callExpr _ l _ => l
  | .funcDecl _ l _ => l
  | .arrowFn l _ => l
  | .funcExpr l _ => l
  | .varDecl _ l _ => l
  | .plain l _ => l

/-- `Math.abs(a - b) < k` on naturals. -/
def distLt (a b k : Nat) : Bool :=
  (if b ≤ a then a - b else b - a) < k

/-- `ts.isFunctionDeclaration || ts.isArrowFunction ||
ts.isFunctionExpression`. -/
def isFnNode : TsNode → Bool
  | .funcDecl _ _ _ => true
  | .arrowFn _ _ => true
  | .funcExpr _ _ => true
  | _ => false

mutual

/-- The `visit` closure of `findRunTypeScriptCall`: a matching call (callee
`runTypeScript`, start line strictly within 10 of the approximate line)
overwrites the `foundCall` accumulator and is not descended into; every
other node is descended into, siblings after a match can overwrite it. -/
def rtVisit (approx : Nat) (acc : Option (List TsNode)) : TsNode → Option (List TsNode)
  | .callExpr isRT line args =>
    if isRT && distLt line approx 10 then some args
    else rtVisitList approx acc args
  | .funcDecl _ _ cs => rtVisitList approx acc cs
  | .arrowFn _ cs => rtVisitList approx acc cs
  | .funcExpr _ cs => rtVisitList approx acc cs
  | .varDecl _ _ cs => rtVisitList approx acc cs
  | .plain _ cs => rtVisitList approx acc cs

/-- `ts.forEachChild` over a child list, threading the accumulator. -/
def rtVisitList (approx : Nat) (acc : Option (List TsNode)) : List TsNode → Option (List TsNode)
  | [] => acc
  | n :: ns => rtVisitList approx (rtVisit approx acc n) ns

end

/-- `findRunTypeScriptCall`: after the traversal, the found call's first
argument is returned when it is a function declaration / arrow function /
function expression. -/
def findRunTypeScriptCall (roots : List TsNode) (approx : Nat) : Option TsNode :=
  match rtVisitList approx none roots with
  | some args =>
    match args with
    | [] => none
    | arg :: _ => if isFnNode arg then some arg else none
  | none => none

/-- The arrow-function / function-expression acceptance test of the fallback
pass: the parent is a variable declaration whose identifier equals the
declared name, or the callable is anonymous. -/
def fbArrowMatch (fname parentVar : Option String) : Bool :=
  (match parentVar, fname with
   | some v, some f => f == v
   | _, _ => false) || fname.isNone

mutual

/-- The `visit` closure of `findFunctionInAST`'s fallback pass.  `parentVar`
is the variable name when the direct parent is a variable declaration with
an identifier name. -/
def fbVisit (approx : Nat) (fname : Option String) (parentVar : Option String) :
    TsNode → Option TsNode
  | .funcDecl nm line cs =>
    if distLt line approx 100 && (fname.isNone || (nm.isSome && nm == fname)) then
      some (.funcDecl nm line cs)
    else fbVisitList approx fname none cs
  | .arrowFn line cs =>
    if distLt line approx 100 && fbArrowMatch fname parentVar then
      some (.arrowFn line cs)
    else fbVisitList approx fname none cs
  | .funcExpr line cs =>
    if distLt line approx 100 && fbArrowMatch fname parentVar then
      some (.funcExpr line cs)
    else fbVisitList approx fname none cs
  | .callExpr _ _ args => fbVisitList approx fname none args
  | .varDecl vn _ cs => fbVisitList approx fname vn cs
  | .plain _ cs => fbVisitList approx fname none cs

/-- `ts.forEachChild`: the first truthy child result wins. -/
def fbVisitList (approx : Nat) (fname : Option String) (parentVar : Option String) :
    List TsNode → Option TsNode
  | [] => none
  | n :: ns =>
    match fbVisit approx fname parentVar n with
    | some r => some r
    | none => fbVisitList approx fname parentVar ns

end

/-- `findFunctionInAST`: the precise `runTypeScript`-call pass first, then
the name/proximity fallback pass. -/
def findFunctionInAST (roots : List TsNode) (fname : Option String) (approx : Nat) :
    Option TsNode :=
  match findRunTypeScriptCall roots approx with
  | some n => some n
  | none => fbVisitList approx fname none roots


/-! ### Analysis of the precise pass (claim C6)

`rtVisit` keeps the last matching call encountered in pre-order (matched
calls are not descended into); `lastRT`/`lastRTList` state that result
declaratively, `countRT` counts matching calls, `firstRT` finds the first. -/

mutual
def lastRT (approx : Nat) : TsNode → Option (List TsNode)
  | .callExpr isRT line args =>
    if isRT && distLt line approx 10 then some args else lastRTList approx args
  | .funcDecl _ _ cs => lastRTList approx cs
  | .arrowFn _ cs => lastRTList approx cs
  | .funcExpr _ cs => lastRTList approx cs
  | .varDecl _ _ cs => lastRTList approx cs
  | .plain _ cs => lastRTList approx cs

def lastRTList (approx : Nat) : List TsNode → Option (List TsNode)
  | [] => none
  | n :: ns =>
    match lastRTList approx ns with
    | some r => some r
    | none => lastRT approx n
end

mutual
theorem rtVisit_char (approx : Nat) (n : TsNode) (acc : Option (List TsNode)) :
    rtVisit approx acc n = match lastRT approx n with
      | some r => some r
      | none => acc := by
  cases n with
  | callExpr isRT line args =>
    unfold rtVisit lastRT
    by_cases hc : (isRT && distLt line approx 10) = true
    · simp [hc]
    · simp only [Bool.not_eq_true] at hc
      simp [hc]
      exact rtVisitList_char approx args acc
  | funcDecl nm line cs => unfold rtVisit lastRT; exact rtVisitList_char approx cs acc
  | arrowFn line cs => unfold rtVisit lastRT; exact rtVisitList_char approx cs acc
  | funcExpr line cs => unfold rtVisit lastRT; exact rtVisitList_char approx cs acc
  | varDecl vn line cs => unfold rtVisit lastRT; exact rtVisitList_char approx cs acc
  | plain line cs => unfold rtVisit lastRT; exact rtVisitList_char approx cs acc

theorem rtVisitList_char (approx : Nat) (l : List TsNode) (acc : Option (List TsNode)) :
    rtVisitList approx acc l = match lastRTList approx l with
      | some r => some r
      | none => acc := by
  cases l with
  | nil => unfold rtVisitList lastRTList; rfl
  | cons n ns =>
    unfold rtVisitList lastRTList
    rw [rtVisitList_char approx ns (rtVisit approx acc n)]
    rw [rtVisit_char approx n acc]
    cases lastRTList approx ns with
    | some r => rfl
    | none => cases lastRT approx n with
      | some r => rfl
      | none => rfl
end

mutual
def countRT (approx : Nat) : TsNode → Nat
  | .callExpr isRT line args =>
    (if isRT && distLt line approx 10 then 1 else 0) + countRTList approx args
  | .funcDecl _ _ cs => countRTList approx cs
  | .arrowFn _ cs => countRTList approx cs
  | .funcExpr _ cs => countRTList approx cs
  | .varDecl _ _ cs => countRTList approx cs
  | .plain _ cs => countRTList approx cs

def countRTList (approx : Nat) : List TsNode → Nat
  | [] => 0
  | n :: ns => countRT approx n + countRTList approx ns
end

mutual
def firstRT (approx : Nat) : TsNode → Option (List TsNode)
  | .callExpr isRT line args =>
    if isRT && distLt line approx 10 then some args else firstRTList approx args
  | .funcDecl _ _ cs => firstRTList approx cs
  | .arrowFn _ cs => firstRTList approx cs
  | .funcExpr _ cs => firstRTList approx cs
  | .varDecl _ _ cs => firstRTList approx cs
  | .plain _ cs => firstRTList approx cs

def firstRTList (approx : Nat) : List TsNode → Option (List TsNode)
  | [] => none
  | n :: ns =>
    match firstRT approx n with
    | some r => some r
    | none => firstRTList approx ns
end

mutual
theorem lastRT_of_count_zero (approx : Nat) (n : TsNode) (h : countRT approx n = 0) :
    lastRT approx n = none := by
  cases n with
  | callExpr isRT line args =>
    unfold countRT at h
    unfold lastRT
    by_cases hc : (isRT && distLt line approx 10) = true
    · rw [hc] at h; simp at h
    · simp only [Bool.not_eq_true] at hc
      simp [hc] at h ⊢
      exact lastRTList_of_count_zero approx args h
  | funcDecl nm line cs => exact lastRTList_of_count_zero approx cs h
  | arrowFn line cs => exact lastRTList_of_count_zero approx cs h
  | funcExpr line cs => exact lastRTList_of_count_zero approx cs h
  | varDecl vn line cs => exact lastRTList_of_count_zero approx cs h
  | plain line cs => exact lastRTList_of_count_zero approx cs h

theorem lastRTList_of_count_zero (approx : Nat) (l : List TsNode)
    (h : countRTList approx l = 0) : lastRTList approx l = none := by
  cases l with
  | nil => rfl
  | cons n ns =>
    unfold countRTList at h
    unfold lastRTList
    have h1 : countRT approx n = 0 := by omega
    have h2 : countRTList approx ns = 0 := by omega
    rw [lastRTList_of_count_zero approx ns h2, lastRT_of_count_zero approx n h1]
end

mutual
theorem firstRT_of_count_zero (approx : Nat) (n : TsNode) (h : countRT approx n = 0) :
    firstRT approx n = none := by
  cases n with
  | callExpr isRT line args =>
    unfold countRT at h
    unfold firstRT
    by_cases hc : (isRT && distLt line approx 10) = true
    · rw [hc] at h; simp at h
    · simp only [Bool.not_eq_true] at hc
      simp [hc] at h ⊢
      exact firstRTList_of_count_zero approx args h
  | funcDecl nm line cs => exact firstRTList_of_count_zero approx cs h
  | arrowFn line cs => exact firstRTList_of_count_zero approx cs h
  | funcExpr line cs => exact firstRTList_of_count_zero approx cs h
  | varDecl vn line cs => exact firstRTList_of_count_zero approx cs h
  | plain line cs => exact firstRTList_of_count_zero approx cs h

theorem firstRTList_of_count_zero (approx : Nat) (l : List TsNode)
    (h : countRTList approx l = 0) : firstRTList approx l = none := by
  cases l with
  | nil => rfl
  | cons n ns =>
    unfold countRTList at h
    unfold firstRTList
    have h1 : countRT approx n = 0 := by omega
    have h2 : countRTList approx ns = 0 := by omega
    rw [firstRT_of_count_zero approx n h1]
    exact firstRTList_of_count_zero approx ns h2
end

mutual
theorem lastRT_eq_firstRT_of_count_one (approx : Nat) (n : TsNode)
    (h : countRT approx n = 1) : lastRT approx n = firstRT approx n := by
  cases n with
  | callExpr isRT line args =>
    unfold countRT at h
    unfold lastRT firstRT
    by_cases hc : (isRT && distLt line approx 10) = true
    · simp [hc]
    · simp only [Bool.not_eq_true] at hc
      simp [hc] at h ⊢
      exact lastRTList_eq_firstRTList_of_count_one approx args h
  | funcDecl nm line cs => exact lastRTList_eq_firstRTList_of_count_one approx cs h
  | arrowFn line cs => exact lastRTList_eq_firstRTList_of_count_one approx cs h
  | funcExpr line cs => exact lastRTList_eq_firstRTList_of_count_one approx cs h
  | varDecl vn line cs => exact lastRTList_eq_firstRTList_of_count_one approx cs h
  | plain line cs => exact lastRTList_eq_firstRTList_of_count_one approx cs h

theorem lastRTList_eq_firstRTList_of_count_one (approx : Nat) (l : List TsNode)
    (h : countRTList approx l = 1) : lastRTList approx l = firstRTList approx l := by
  cases l with
  | nil => rfl
  | cons n ns =>
    unfold countRTList at h
    unfold lastRTList firstRTList
    by_cases h1 : countRT approx n = 1
    · have h2 : countRTList approx ns = 0 := by omega
      rw [lastRTList_of_count_zero approx ns h2,
        lastRT_eq_firstRT_of_count_one approx n h1]
      cases hf : firstRT approx n with
      | some r => rfl
      | none => rw [firstRTList_of_count_zero approx ns h2]
    · have h1' : countRT approx n = 0 := by omega
      have h2 : countRTList approx ns = 1 := by omega
      rw [lastRT_of_count_zero approx n h1', firstRT_of_count_zero approx n h1']
      rw [lastRTList_eq_firstRTList_of_count_one approx ns h2]
      cases firstRTList approx ns with
      | some r => rfl
      | none => rfl
end

/-! ### Stack-trace parsing (`parseStackTrace`)

`STACK_TRACE_PATTERN1 = /\(([^:]+):(\d+):\d+\)/` and
`STACK_TRACE_PATTERN2 = /([^:]+):(\d+):\d+/`.  At a fixed start position the
decomposition is unique: `[^:]+` must stop at the first `:`, each `\d+` at
the first non-digit, so matching is a deterministic check per position and
`String.match` is the leftmost such position. -/

/-- Anchored attempt of pattern 1 (`\(([^:]+):(\d+):\d+\)`); returns the two
captures (file part, line digits). -/
def p1MatchAt : List Char → Option (List Char × List Char)
  | '(' :: rest =>
    let cap := rest.takeWhile (fun c => c ≠ ':')
    if cap.isEmpty then none else
    match rest.drop cap.length with
    | ':' :: r2 =>
      let d1 := r2.takeWhile isDigitChar
      if d1.isEmpty then none else
      match r2.drop d1.length with
      | ':' :: r4 =>
        let d2 := r4.takeWhile isDigitChar
        if d2.isEmpty then none else
        match r4.drop d2.length with
        | ')' :: _ => some (cap, d1)
        | _ => none
      | _ => none
    | _ => none
  | _ => none

/-- Anchored attempt of pattern 2 (`([^:]+):(\d+):\d+`). -/
def p2MatchAt (cs : List Char) : Option (List Char × List Char) :=
  let cap := cs.takeWhile (fun c => c ≠ ':')
  if cap.isEmpty then none else
  match cs.drop cap.length with
  | ':' :: r2 =>
    let d1 := r2.takeWhile isDigitChar
    if d1.isEmpty then none else
    match r2.drop d1.length with
    | ':' :: r4 =>
      let d2 := r4.takeWhile isDigitChar
      if d2.isEmpty then none else some (cap, d1)
    | _ => none
  | _ => none

/-- `line.match(PATTERN1) || line.match(PATTERN2)` followed by
`resolve(match[1])` and `Number.parseInt(match[2], 10)` is deferred to the
caller; this returns the raw captures. -/
def lineMatchResult (lineStr : String) : Option (String × Nat) :=
  match scanMatch p1MatchAt lineStr.data with
  | some (cap, d1) => some (⟨cap⟩, digitsVal d1)
  | none =>
    match scanMatch p2MatchAt lineStr.data with
    | some (cap, d1) => some (⟨cap⟩, digitsVal d1)
    | none => none

/-- The per-line step of `parseStackTrace`'s loop: pattern match, resolve,
then the `node_modules` / `dist` / internal-module / existence filters. -/
def frameQualify (resolve : String → String) (fsExists : String → Bool)
    (lineStr : String) : Option (String × Nat) :=
  match lineMatchResult lineStr with
  | none => none
  | some (raw, lineNumber) =>
    let filePath := resolve raw
    if !strIncludes filePath "node_modules" &&
       !strIncludes filePath "dist" &&
       !strIncludes filePath "src/core/step.ts" &&
       !strIncludes filePath "src/synth/workflow-processor.ts" &&
       !strIncludes filePath "src/synth/function-extractor.ts" &&
       fsExists filePath then
      some (filePath, lineNumber)
    else none

/-- The `for (const line of lines)` loop with early return. -/
def parseStackTraceLoop (resolve : String → String) (fsExists : String → Bool) :
    List String → Option (String × Nat)
  | [] => none
  | l :: ls =>
    match frameQualify resolve fsExists l with
    | some r => some r
    | none => parseStackTraceLoop resolve fsExists ls

/-- `parseStackTrace` (function-extractor.ts): split the stack into lines
and return the first qualifying `(file, line)` pair, else `null`. -/
def parseStackTrace (resolve : String → String) (fsExists : String → Bool)
    (stack : String) : Option (String × Nat) :=
  parseStackTraceLoop resolve fsExists (jsSplitNl stack)

theorem parseStackTraceLoop_spec (resolve : String → String)
    (fsExists : String → Bool) (lines : List String) :
    match parseStackTraceLoop resolve fsExists lines with
    | some r => ∃ i li, lines.get? i = some li ∧
        frameQualify resolve fsExists li = some r ∧
        ∀ j, j < i → ∀ lj, lines.get? j = some lj →
          frameQualify resolve fsExists lj = none
    | none => ∀ l ∈ lines, frameQualify resolve fsExists l = none := by
  induction lines with
  | nil => intro l hl; simp at hl
  | cons a t ih =>
    unfold parseStackTraceLoop
    cases ha : frameQualify resolve fsExists a with
    | some r =>
      exact ⟨0, a, rfl, ha, fun j hj lj hlj => absurd hj (Nat.not_lt_zero j)⟩
    | none =>
      cases ht : parseStackTraceLoop resolve fsExists t with
      | some r =>
        rw [ht] at ih
        obtain ⟨i, li, hget, hq, hbefore⟩ := ih
        refine ⟨i + 1, li, by simpa using hget, hq, ?_⟩
        intro j hj lj hlj
        cases j with
        | zero =>
          simp at hlj
          rw [← hlj]
          exact ha
        | succ k =>
          exact hbefore k (Nat.lt_of_succ_lt_succ hj) lj (by simpa using hlj)
      | none =>
        rw [ht] at ih
        intro l hl
        rcases List.mem_cons.mp hl with rfl | hmem
        · exact ha
        · exact ih l hmem

/-- C7: `parseStackTrace` returns the `(file, line)` pair extracted from the
first stack line that matches a positional pattern, resolves to a path
outside `node_modules`, `dist` and the library's own internal modules, and
exists on disk (per the ambient `fsExists`); every earlier line fails the
pattern or a filter.  When no line qualifies it returns `none`. -/
theorem parseStackTrace_first_qualifying (resolve : String → String)
    (fsExists : String → Bool) (stack : String) :
    match parseStackTrace resolve fsExists stack with
    | some r => ∃ i li, (jsSplitNl stack).get? i = some li ∧
        frameQualify resolve fsExists li = some r ∧
        ∀ j, j < i → ∀ lj, (jsSplitNl stack).get? j = some lj →
          frameQualify resolve fsExists lj = none
    | none => ∀ l ∈ jsSplitNl stack, frameQualify resolve fsExists l = none :=
  parseStackTraceLoop_spec resolve fsExists (jsSplitNl stack)

/-! ## Claim C6: the precise extraction pass

The claim as stated quantifies over every qualifying `runTypeScript` call in
the file.  The traversal, however, keeps the **last** matching call in
pre-order (each later match overwrites `foundCall`), and when that last
call's first argument is not a function node the precise pass yields nothing
and the fallback search runs instead — so a qualifying call whose first
argument is a function can be passed over.  The counterexample exhibits two
matching calls where the first has an arrow-function argument and the second
does not; the amended claim adds uniqueness of the matching call. -/

/-- C6 counterexample: the file holds a call with callee `runTypeScript`
on line 5 (within 10 lines of the approximate line 5) whose first argument
is an arrow function — yet the extractor selects nothing (a second matching
call without a function argument overwrites the first, and the fallback
then finds no node for the named function), instead of selecting that
first argument. -/
theorem precise_pass_claim_counterexample :
    (distLt 5 5 10 = true ∧ isFnNode (TsNode.arrowFn 5 []) = true ∧
      countRT 5 (TsNode.callExpr true 5 [TsNode.arrowFn 5 []]) = 1) ∧
    findFunctionInAST
      [TsNode.callExpr true 5 [TsNode.arrowFn 5 []],
       TsNode.callExpr true 6 [TsNode.plain 6 []]]
      (some "f") 5 = none :=
  ⟨⟨rfl, rfl, rfl⟩, rfl⟩

/-- C6 (amended): whenever the parsed source file contains **exactly one**
call expression whose callee is the entry-point method `runTypeScript`
strictly within 10 lines of the approximate line, and that call's first
argument is a function declaration, function expression or arrow function,
the extractor selects that first argument as the target node, in preference
to the name/proximity fallback search. -/
theorem precise_pass_selects_unique_call (roots : List TsNode)
    (fname : Option String) (approx : Nat) (arg : TsNode) (rest : List TsNode)
    (hcount : countRTList approx roots = 1)
    (hfirst : firstRTList approx roots = some (arg :: rest))
    (hfn : isFnNode arg = true) :
    findRunTypeScriptCall roots approx = some arg ∧
    findFunctionInAST roots fname approx = some arg := by
  have hlast : lastRTList approx roots = some (arg :: rest) := by
    rw [lastRTList_eq_firstRTList_of_count_one approx roots hcount]
    exact hfirst
  have hcall : findRunTypeScriptCall roots approx = some arg := by
    unfold findRunTypeScriptCall
    rw [rtVisitList_char approx roots none, hlast]
    simp [hfn]
  refine ⟨hcall, ?_⟩
  unfold findFunctionInAST
  rw [hcall]

/-- C6 amended-claim witness: a file with a single qualifying call whose
first argument is an arrow function. -/
theorem precise_pass_selects_unique_call_witness :
    findRunTypeScriptCall [TsNode.callExpr true 5 [TsNode.arrowFn 5 []]] 5 =
      some (TsNode.arrowFn 5 []) ∧
    findFunctionInAST [TsNode.callExpr true 5 [TsNode.arrowFn 5 []]]
      (some "f") 5 = some (TsNode.arrowFn 5 []) :=
  precise_pass_selects_unique_call
    [TsNode.callExpr true 5 [TsNode.arrowFn 5 []]] (some "f") 5
    (TsNode.arrowFn 5 []) [] rfl rfl rfl

/-! ## Claim C10: `extractTypeScriptFunction` is total -/

/-- `ExtractedFunction`. -/
structure ExtractedFunction where
  source : String
  sourceFile : String
  functionName : Option String
  startLine : Nat
  endLine : Nat
deriving Repr

/-- `getFunctionName`: only a named function declaration yields a name. -/
def getFunctionName : TsNode → Option String
  | .funcDecl (some nm) _ _ => some nm
  | _ => none

/-- The ambient effects `extractTypeScriptFunction` uses, as explicit
functions: `path.resolve`, `fs.existsSync`, `fs.readFileSync` (which may
throw — `Except`), `ts.createSourceFile` (the parsed top-level nodes),
`printer.printNode`, the end line of a node
(`getLineAndCharacterOfPosition(getEnd()).line + 1`), and the stack of
`new Error(...).stack` when no stack trace was passed in. -/
structure ExtractEnv where
  resolve : String → String
  fsExists : String → Bool
  readFile : String → Except String String
  parseAst : String → String → List TsNode
  printNode : TsNode → String
  endLineOf : TsNode → Nat
  implicitStack : String

/-- `fn.name || null`: an anonymous function (empty `name`) has none. -/
def fnNameOpt (fn : TypeScriptFn) : Option String :=
  if fn.fnName = "" then none else some fn.fnName

/-- `stackTrace || new Error("TypeScript function extraction").stack || ""`
(the empty string is falsy). -/
def effectiveStack (env : ExtractEnv) (stackTrace : Option String) : String :=
  match stackTrace with
  | some s => if s = "" then env.implicitStack else s
  | none => env.implicitStack

/-- `extractTypeScriptFunction` (function-extractor.ts): locate the source
via the stack trace, read and parse the file, find the function node, and
reprint it; every failure — no qualifying stack frame, an exception from
`readFileSync` (caught by the surrounding `try`), or no matching AST node —
becomes `none`. -/
def extractTypeScriptFunction (env : ExtractEnv) (fn : TypeScriptFn)
    (stackTrace : Option String) : Option ExtractedFunction :=
  match parseStackTrace env.resolve env.fsExists (effectiveStack env stackTrace) with
  | none => none
  | some (filePath, lineNumber) =>
    match env.readFile filePath with
    | .error _ => none
    | .ok sourceCode =>
      match findFunctionInAST (env.parseAst filePath sourceCode)
          (fnNameOpt fn) lineNumber with
      | none => none
      | some node =>
        some { source := env.printNode node
               sourceFile := filePath
               functionName := getFunctionName node
               startLine := nodeLine node
               endLine := env.endLineOf node }

/-- C10: `extractTypeScriptFunction` is total at its interface — for every
function value, stack trace and file-system state it yields `some` record or
`none`, never an exception: an unusable stack trace gives `none`, a
`readFileSync` exception is caught and gives `none`, a missing AST node
gives `none`, and otherwise the extracted record is returned. -/
theorem extractTypeScriptFunction_total (env : ExtractEnv) (fn : TypeScriptFn)
    (stackTrace : Option String) :
    match parseStackTrace env.resolve env.fsExists (effectiveStack env stackTrace) with
    | none => extractTypeScriptFunction env fn stackTrace = none
    | some (filePath, lineNumber) =>
      match env.readFile filePath with
      | .error _ => extractTypeScriptFunction env fn stackTrace = none
      | .ok sourceCode =>
        match findFunctionInAST (env.parseAst filePath sourceCode)
            (fnNameOpt fn) lineNumber with
        | none => extractTypeScriptFunction env fn stackTrace = none
        | some node =>
          extractTypeScriptFunction env fn stackTrace =
            some { source := env.printNode node
                   sourceFile := filePath
                   functionName := getFunctionName node
                   startLine := nodeLine node
                   endLine := env.endLineOf node } := by
  unfold extractTypeScriptFunction
  cases hp : parseStackTrace env.resolve env.fsExists (effectiveStack env stackTrace) with
  | none => rfl
  | some fl =>
    obtain ⟨filePath, lineNumber⟩ := fl
    cases hr : env.readFile filePath with
    | error e => simp [hr]
    | ok sourceCode =>
      cases hf : findFunctionInAST (env.parseAst filePath sourceCode)
          (fnNameOpt fn) lineNumber with
      | none => simp [hr, hf]
      | some node => simp [hr, hf]

/-! ## The TypeScript transpiler (src/synth/typescript-transpiler.ts)

`extractImports` runs `/import\s+(?:.+?\s+from\s+)?["']([^"']+)["']/g` with
an `exec` loop.  At a fixed start position the engine first tries the greedy
optional `from` group with the lazy `.+?` (shortest expansion first, the dot
never crossing a newline), then the group-absent branch; the quoted capture
is the maximal run of non-quote characters.  The `g` loop resumes after each
match (`lastIndex`); the scan below carries fuel bounded by the text length,
which every step consumes. -/

/-- `["']([^"']+)["']`: opening quote (either kind), non-empty capture of
non-quote characters, closing quote (either kind); returns the capture and
the remainder after the match. -/
def quoteCapture : List Char → Option (List Char × List Char)
  | q :: r2 =>
    if q = '"' || q = '\x27' then
      let cap := r2.takeWhile (fun c => c ≠ '"' && c ≠ '\x27')
      if cap.isEmpty then none else
      match r2.drop cap.length with
      | q2 :: r3 => if q2 = '"' || q2 = '\x27' then some (cap, r3) else none
      | [] => none
    else none
  | [] => none

/-- `\s+from\s+["']([^"']+)["']` anchored at the head. -/
def importFromTail (r : List Char) : Option (List Char × List Char) := do
  let r ← ws1 r
  let r ← stripLit "from".data r
  let r ← ws1 r
  quoteCapture r

/-- The lazy `.+?` search: consume at least one non-newline character, then
try the `from` tail at each subsequent position, shortest first. -/
def searchFromTail : List Char → Option (List Char × List Char)
  | [] => none
  | c :: rest =>
    if c = '\n' then none
    else
      match importFromTail rest with
      | some r => some r
      | none => searchFromTail rest

/-- One anchored attempt of the import regex; returns the captured module
specifier and the remainder of the text after the match. -/
def importMatchAt (cs : List Char) : Option (List Char × List Char) := do
  let r ← stripLit "import".data cs
  let r ← ws1 r
  match searchFromTail r with
  | some res => some res
  | none => quoteCapture r

/-- The `exec` loop: leftmost match, restart after the match.  The fuel is
the length of the text; every iteration consumes at least one character. -/
def extractImportsScan : Nat → List Char → List String
  | 0, _ => []
  | _, [] => []
  | Nat.succ fuel, c :: rest =>
    match importMatchAt (c :: rest) with
    | some (cap, rem) => (⟨cap⟩ : String) :: extractImportsScan fuel rem
    | none => extractImportsScan fuel rest

/-- `extractImports`: the module specifiers of the `import` statements of
the source, in order. -/
def extractImports (source : String) : List String :=
  extractImportsScan source.data.length source.data

/-- `FUNCTION_DECL_REGEX` of the transpiler:
`/(?:export\s+)?(?:async\s+)?function\s+(\w+)/`, anchored. -/
def funcDeclMatchAtP18 (cs : List Char) : Option (List Char) :=
  let core := fun (r : List Char) => do
    let r ← stripLit "function".data r
    let r ← ws1 r
    let (w, _) ← word1 r
    pure w
  let inner := fun (r : List Char) =>
    (do
      let r2 ← stripLit "async".data r
      let r2 ← ws1 r2
      core r2) <|> core r
  (do
    let r ← stripLit "export".data cs
    let r ← ws1 r
    inner r) <|> inner cs

/-- `ARROW_FUNCTION_REGEX` of the transpiler:
`/(?:export\s+)?(?:const|let|var)\s+(\w+)\s*=\s*(?:async\s*)?\(/`,
anchored. -/
def arrowMatchAtP18 (cs : List Char) : Option (List Char) :=
  let core := fun (r : List Char) => do
    let r ← (stripLit "const".data r <|> stripLit "let".data r <|>
      stripLit "var".data r)
    let r ← ws1 r
    let (w, r) ← word1 r
    let r := ws0 r
    let r ← stripLit "=".data r
    let r := ws0 r
    (do
      let r2 ← stripLit "async".data r
      let r2 := ws0 r2
      let _ ← stripLit "(".data r2
      pure w) <|> (do
      let _ ← stripLit "(".data r
      pure w)
  (do
    let r ← stripLit "export".data cs
    let r ← ws1 r
    core r) <|> core cs

/-- `DEFAULT_EXPORT_REGEX = /export\s+default\s+(\w+)/`, anchored. -/
def defaultExportMatchAt (cs : List Char) : Option (List Char) := do
  let r ← stripLit "export".data cs
  let r ← ws1 r
  let r ← stripLit "default".data r
  let r ← ws1 r
  let (w, _) ← word1 r
  pure w

/-- `getFunctionIdentifierFromSource` (typescript-transpiler.ts). -/
def getFunctionIdentifierFromSource (source : String) : String :=
  match scanMatch funcDeclMatchAtP18 source.data with
  | some w => ⟨w⟩
  | none =>
    match scanMatch arrowMatchAtP18 source.data with
    | some w => ⟨w⟩
    | none =>
      if strIncludes source "export default" then
        match scanMatch defaultExportMatchAt source.data with
        | some w => ⟨w⟩
        | none => "(function() \x7b " ++ source ++ " \x7d)()"
      else "(function() \x7b " ++ source ++ " \x7d)()"

/-- JavaScript `s.startsWith(pre)`. -/
def strStartsWith (s pre : String) : Bool := listStartsWith s.data pre.data

/-- JavaScript `s.trim()`. -/
def jsTrim (s : String) : String :=
  ⟨((s.data.dropWhile isJsWs).reverse.dropWhile isJsWs).reverse⟩

/-- `code.split("\n").map(line => "  " + line).join("\n")`. -/
def jsIndent2 (code : String) : String :=
  joinNl ((jsSplitNl code).map (fun l => "  " ++ l))

/-- `wrapWithErrorHandler`: the error-normalizing wrapper — reformat stack
frames to `at name (file:line:col)`, log to the error stream, exit 1 on an
uncaught exception. -/
def wrapWithErrorHandler (code : String) (_sourceFile : String) : String :=
  jsTrim ("\n// Enhanced error handling with source map support\nconst originalError = Error;\nError.prepareStackTrace = function(error, stack) \x7b\n  // Try to map stack traces back to original source\n  return stack.map(frame => \x7b\n    const fileName = frame.getFileName();\n    const lineNumber = frame.getLineNumber();\n    const columnNumber = frame.getColumnNumber();\n    const functionName = frame.getFunctionName();\n    \n    // Provide clear error context\n    return \x60    at \x24\x7bfunctionName || \x27<anonymous>\x27\x7d (\x24\x7bfileName\x7d:\x24\x7blineNumber\x7d:\x24\x7bcolumnNumber\x7d)\x60;\n  \x7d).join(\x27\\n\x27);\n\x7d;\n\ntry \x7b\n" ++
    jsIndent2 code ++
    "\n\x7d catch (error) \x7b\n  console.error(\"Error in TypeScript function:\", error.message);\n  if (error.stack) \x7b\n    console.error(\"Stack trace:\");\n    console.error(error.stack);\n  \x7d\n  process.exit(1);\n\x7d\n")

/-- `generateFunctionCallCodeForCJS`: module-host object, evaluate the
bundle, retrieve and invoke the export, print a non-`undefined` result,
exit 0 / print diagnostics and exit 1. -/
def generateFunctionCallCodeForCJS (bundledCode : String)
    (processedArgs : List String) (_functionIdentifier : String)
    (_isWrappedFunction : Bool) : String :=
  jsTrim ("\n// Create module object for CommonJS compatibility\nconst module = \x7b exports: \x7b\x7d \x7d;\nconst exports = module.exports;\n\n" ++
    bundledCode ++
    "\n\n// Execute the function\n(async () => \x7b\n  try \x7b\n    const fn = module.exports;\n    \n    if (!fn || typeof fn !== \x27function\x27) \x7b\n      throw new Error(\x27Function not found in bundle. Expected module.exports to contain a function.\x27);\n    \x7d\n    \n    const result = await fn(" ++
    joinComma processedArgs ++
    ");\n    if (result !== undefined) \x7b\n      console.log(result);\n    \x7d\n    process.exit(0);\n  \x7d catch (error) \x7b\n    console.error(\"Error executing function:\", error);\n    if (error instanceof Error) \x7b\n      console.error(\"Stack trace:\", error.stack);\n    \x7d\n    process.exit(1);\n  \x7d\n\x7d)();\n")

/-- `TranspiledResult`. -/
structure TranspiledResult where
  code : String
  sourceMap : Option String
  dependencies : List String
deriving Repr, DecidableEq

/-- The observable outcome of one `esbuild.build` invocation. -/
structure EsbuildResult where
  errors : List String
  outputText : String
  sourceMapText : Option String

/-- Observable events of a transpilation, used to state that the fallback
runs exactly once and a warning is logged. -/
inductive TranspileEv where
  | bundleAttempt
  | fallbackWarn
  | fallbackAttempt
deriving DecidableEq, Repr

/-- `transpileWithoutBundling`: downlevel with the TypeScript compiler
(`tsc source = (outputText, sourceMapText)`), wrap with the invoke/print/
exit driver and the error handler; dependencies are the unresolved imports
of the source. -/
def transpileWithoutBundling (tsc : String → String × Option String)
    (functionSource sourceFile : String) (processedArgs : List String)
    (envVarCode : String) : TranspiledResult :=
  let transpiledCode := (tsc functionSource).1
  let executionCode := generateFunctionCallCode transpiledCode processedArgs .typescript
  let fullCode := "\n" ++ envVarCode ++ "\n\n" ++ executionCode ++ "\n"
  { code := wrapWithErrorHandler fullCode sourceFile
    sourceMap := (tsc functionSource).2
    dependencies := extractImports functionSource }

/-- The virtual entry module handed to esbuild. -/
def entryCodeFor (functionSource envVarCode : String) : String :=
  let functionIdentifier := getFunctionIdentifierFromSource functionSource
  if strStartsWith functionIdentifier "(function()" then
    "\n" ++ envVarCode ++ "\n\n// Export the function\nmodule.exports = " ++
      functionSource ++ ";\n"
  else
    "\n" ++ envVarCode ++ "\n\n" ++ functionSource ++
      "\n\n// Export function for execution\nmodule.exports = " ++
      functionIdentifier ++ ";\n"

/-- `transpileWithBundling`: `esbuild = none` models a failing
`await import("esbuild")`; a build reporting errors models the thrown
`Transpilation errors` exception.  Both are caught by the surrounding
`try`, log one warning and make exactly one fallback call. -/
def transpileWithBundling (esbuild : Option (String → EsbuildResult))
    (tsc : String → String × Option String)
    (functionSource sourceFile : String) (processedArgs : List String)
    (envVarCode : String) : TranspiledResult × List TranspileEv :=
  match esbuild with
  | none =>
    (transpileWithoutBundling tsc functionSource sourceFile processedArgs envVarCode,
     [.bundleAttempt, .fallbackWarn, .fallbackAttempt])
  | some build =>
    let functionIdentifier := getFunctionIdentifierFromSource functionSource
    let isWrappedFunction := strStartsWith functionIdentifier "(function()"
    let result := build (entryCodeFor functionSource envVarCode)
    if result.errors.length > 0 then
      (transpileWithoutBundling tsc functionSource sourceFile processedArgs envVarCode,
       [.bundleAttempt, .fallbackWarn, .fallbackAttempt])
    else
      ({ code := wrapWithErrorHandler
            (generateFunctionCallCodeForCJS result.outputText processedArgs
              functionIdentifier isWrappedFunction) sourceFile
         sourceMap := result.sourceMapText
         dependencies := [] },
       [.bundleAttempt])

/-- `transpileTypeScriptFunction` (`options.bundle ?? true`). -/
def transpileTypeScriptFunction (esbuild : Option (String → EsbuildResult))
    (tsc : String → String × Option String) (extracted : ExtractedFunction)
    (args : List ArgValue) (bundle : Bool) : TranspiledResult × List TranspileEv :=
  let processedArgs := processArguments args .typescript
  let envVarCode := generateEnvVarCode args .typescript
  if bundle then
    transpileWithBundling esbuild tsc extracted.source extracted.sourceFile
      processedArgs envVarCode
  else
    (transpileWithoutBundling tsc extracted.source extracted.sourceFile
      processedArgs envVarCode, [])

/-- C8: when the bundling path fails — esbuild unavailable, or the build
reports errors — the result is exactly the non-bundling fallback's, the
event trace shows one bundle attempt, one warning, and exactly one fallback
attempt (no retry loop), and the fallback leaves imports unresolved,
reporting them through the `dependencies` list. -/
theorem bundling_single_fallback (esbuild : Option (String → EsbuildResult))
    (tsc : String → String × Option String)
    (functionSource sourceFile : String) (processedArgs : List String)
    (envVarCode : String)
    (hfail : esbuild = none ∨ ∃ build, esbuild = some build ∧
      (build (entryCodeFor functionSource envVarCode)).errors.length > 0) :
    transpileWithBundling esbuild tsc functionSource sourceFile processedArgs
        envVarCode =
      (transpileWithoutBundling tsc functionSource sourceFile processedArgs
        envVarCode, [.bundleAttempt, .fallbackWarn, .fallbackAttempt]) ∧
    (transpileWithBundling esbuild tsc functionSource sourceFile processedArgs
        envVarCode).2.count .fallbackAttempt = 1 ∧
    (transpileWithBundling esbuild tsc functionSource sourceFile processedArgs
        envVarCode).1.dependencies = extractImports functionSource := by
  have hmain : transpileWithBundling esbuild tsc functionSource sourceFile
      processedArgs envVarCode =
      (transpileWithoutBundling tsc functionSource sourceFile processedArgs
        envVarCode, [.bundleAttempt, .fallbackWarn, .fallbackAttempt]) := by
    rcases hfail with rfl | ⟨build, rfl, herr⟩
    · rfl
    · unfold transpileWithBundling
      simp [herr]
  refine ⟨hmain, ?_, ?_⟩
  · rw [hmain]
    rfl
  · rw [hmain]
    rfl

/-- C8 witness: no esbuild available, a one-import source; the fallback
result is produced with the import reported unresolved. -/
theorem bundling_single_fallback_witness :
    transpileWithBundling none (fun s => (s, none))
        "import \x27fs\x27; function f() \x7b\x7d" "/tmp/a.ts" [] "" =
      (transpileWithoutBundling (fun s => (s, none))
        "import \x27fs\x27; function f() \x7b\x7d" "/tmp/a.ts" [] "",
       [.bundleAttempt, .fallbackWarn, .fallbackAttempt]) ∧
    (transpileWithBundling none (fun s => (s, none))
        "import \x27fs\x27; function f() \x7b\x7d" "/tmp/a.ts" [] "").2.count
      .fallbackAttempt = 1 ∧
    (transpileWithBundling none (fun s => (s, none))
        "import \x27fs\x27; function f() \x7b\x7d" "/tmp/a.ts" [] "").1.dependencies =
      extractImports "import \x27fs\x27; function f() \x7b\x7d" :=
  bundling_single_fallback none (fun s => (s, none))
    "import \x27fs\x27; function f() \x7b\x7d" "/tmp/a.ts" [] "" (Or.inl rfl)

/-! ## The workflow processor (src/synth/workflow-processor.ts) -/

/-- The message of the error thrown when function-source extraction fails. -/
def extractFailMsg : String :=
  "Failed to extract TypeScript function source. Make sure the function is defined in a TypeScript source file."

/-- JavaScript object property assignment `envVars[name] = value` (update in
place, or append as the last key). -/
def recordSet (m : List (String × String)) (k v : String) : List (String × String) :=
  if m.any (fun p => p.1 == k) then
    m.map (fun p => if p.1 == k then (k, v) else p)
  else m ++ [(k, v)]

/-- The `args.forEach((arg, index) => ...)` loop of `processTypeScriptStep`:
a string argument containing `${{` gets `GITHUB_EXPR_<index>` set to its raw
text. -/
def addExprEnvVars (index : Nat) (envVars : List (String × String)) :
    List ArgValue → List (String × String)
  | [] => envVars
  | arg :: rest =>
    let envVars :=
      match arg with
      | .str s =>
        if strIncludes s "$\x7b\x7b" then
          recordSet envVars ("GITHUB_EXPR_" ++ jsNatToString index) s
        else envVars
      | _ => envVars
    addExprEnvVars (index + 1) envVars rest

/-- The property-copying block of `processTypeScriptStep` (JavaScript
truthiness: the empty string, `false` and `0` are falsy and not copied;
an `env` object is copied whenever present). -/
def copyStepProps (stepJson : IStep) : StepState :=
  let s := stepNew
  let s := match stepJson.name with
    | some v => if v ≠ "" then Step.setName s v else s
    | none => s
  let s := match stepJson.id with
    | some v => if v ≠ "" then Step.setId s v else s
    | none => s
  let s := match stepJson.env with
    | some e => Step.env s e
    | none => s
  let s := match stepJson.ifCond with
    | some v => if v ≠ "" then Step.ifCondition s v else s
    | none => s
  let s := match stepJson.continueOnError with
    | some b => if b then Step.continueOnError s b else s
    | none => s
  let s := match stepJson.timeoutMinutes with
    | some n => if n ≠ 0 then Step.timeoutMinutes s n else s
    | none => s
  let s := match stepJson.workingDirectory with
    | some v => if v ≠ "" then Step.workingDirectory s v else s
    | none => s
  s

/-- `processTypeScriptStep`: extract the function source (throwing when
extraction yields `null`), transpile it, and build the replacement step: the
original step's properties, the `GITHUB_EXPR_<i>` environment variables for
GitHub-expression arguments, and the transpiled code wrapped for the shell
as the `run` command. -/
def processTypeScriptStep (env : ExtractEnv)
    (esbuild : Option (String → EsbuildResult))
    (tsc : String → String × Option String) (step : StepState)
    (tsData : TypeScriptFn × List ArgValue × Option TsStepOptions × Option String) :
    Except String StepState :=
  match extractTypeScriptFunction env tsData.1 tsData.2.2.2 with
  | none => .error extractFailMsg
  | some extracted =>
    let transpiled :=
      (transpileTypeScriptFunction esbuild tsc extracted tsData.2.1 true).1
    match Step.toJSON step with
    | .error e => .error e
    | .ok stepJson =>
      let newStep := copyStepProps stepJson
      let envVars := addExprEnvVars 0 (stepJson.env.getD []) tsData.2.1
      let newStep := if envVars.isEmpty then newStep else Step.env newStep envVars
      .ok (Step.run newStep (wrapJavaScriptForShell transpiled.code))

/-- `processStep`: only function steps are processed; any other step is
returned as-is. -/
def processStep (env : ExtractEnv) (esbuild : Option (String → EsbuildResult))
    (tsc : String → String × Option String) (step : StepState) :
    Except String StepState :=
  match Step.getTypeScriptFunction step with
  | some tsData => processTypeScriptStep env esbuild tsc step tsData
  | none => .ok step

/-- The inner step loop of `processWorkflowSteps`: steps are processed in
order and the first exception aborts the loop. -/
def processSteps (env : ExtractEnv) (esbuild : Option (String → EsbuildResult))
    (tsc : String → String × Option String) :
    List StepState → Except String (List StepState)
  | [] => .ok []
  | s :: rest =>
    match processStep env esbuild tsc s with
    | .error e => .error e
    | .ok p =>
      match processSteps env esbuild tsc rest with
      | .error e => .error e
      | .ok ps => .ok (p :: ps)

/-- The job loop of `processWorkflowSteps`, with the in-place mutation made
explicit: a job's step list is replaced (`_setStepInstances`) only after all
its steps processed; an exception leaves the failing job and every later job
untouched and carries the error out. -/
def runPass (env : ExtractEnv) (esbuild : Option (String → EsbuildResult))
    (tsc : String → String × Option String) :
    List JobState → List JobState × Option String
  | [] => ([], none)
  | j :: rest =>
    match processSteps env esbuild tsc j.steps with
    | .error e => (j :: rest, some e)
    | .ok ps =>
      let r := runPass env esbuild tsc rest
      (⟨ps⟩ :: r.1, r.2)

/-- `processWorkflowSteps`: add the missing setup actions, then process
every job's steps; the first exception propagates to the caller. -/
def processWorkflowSteps (env : ExtractEnv)
    (esbuild : Option (String → EsbuildResult))
    (tsc : String → String × Option String) (w : WorkflowState) :
    WorkflowState × Option String :=
  match addSetupActionsToWorkflow w with
  | .error e => (w, some e)
  | .ok w1 =>
    let r := runPass env esbuild tsc w1.jobs
    (⟨r.1⟩, r.2)

/-- Modelled from the spec: the orchestrator that runs the synthesis pass
and only then serialization ("the first LocationNotFound/NodeNotFound
encountered anywhere in the graph halts the entire synthesis pass; nothing
downstream (serialization) executes", spec §7); the orchestrator itself is
not among the repository's source files — only `processWorkflowSteps` and
the serializer are.  On a failed pass no output is emitted. -/
def synthesizePipeline (env : ExtractEnv)
    (esbuild : Option (String → EsbuildResult))
    (tsc : String → String × Option String)
    (serialize : WorkflowState → String) (w : WorkflowState) : Option String :=
  match processWorkflowSteps env esbuild tsc w with
  | (_, some _) => none
  | (w1, none) => some (serialize w1)

/-! ## Claim C2: extraction failure halts the pass -/

theorem processSteps_fails_at (env : ExtractEnv)
    (esbuild : Option (String → EsbuildResult))
    (tsc : String → String × Option String)
    (sbefore safter : List StepState) (fs : StepState)
    (tsData : TypeScriptFn × List ArgValue × Option TsStepOptions × Option String)
    (hsb : ∀ s ∈ sbefore, ∃ s', processStep env esbuild tsc s = .ok s')
    (hts : Step.getTypeScriptFunction fs = some tsData)
    (hfail : extractTypeScriptFunction env tsData.1 tsData.2.2.2 = none) :
    processSteps env esbuild tsc (sbefore ++ fs :: safter) = .error extractFailMsg := by
  induction sbefore with
  | nil =>
    simp only [List.nil_append]
    unfold processSteps processStep
    rw [hts]
    unfold processTypeScriptStep
    simp [hfail]
  | cons s rest ih =>
    obtain ⟨s', hs'⟩ := hsb s (List.mem_cons_self s rest)
    have hrest := ih (fun t ht => hsb t (List.mem_cons_of_mem _ ht))
    rw [List.cons_append]
    unfold processSteps
    rw [hs', hrest]

theorem runPass_halts (env : ExtractEnv)
    (esbuild : Option (String → EsbuildResult))
    (tsc : String → String × Option String)
    (pre post : List JobState) (failJob : JobState)
    (hpre : ∀ j ∈ pre, ∃ j', processSteps env esbuild tsc j.steps = .ok j')
    (hfj : processSteps env esbuild tsc failJob.steps = .error extractFailMsg) :
    ∃ pre', pre'.length = pre.length ∧
      runPass env esbuild tsc (pre ++ failJob :: post) =
        (pre' ++ failJob :: post, some extractFailMsg) := by
  induction pre with
  | nil =>
    refine ⟨[], rfl, ?_⟩
    simp only [List.nil_append]
    unfold runPass
    rw [hfj]
  | cons j rest ih =>
    obtain ⟨j', hj'⟩ := hpre j (List.mem_cons_self j rest)
    obtain ⟨pre'', hlen, hrun⟩ := ih (fun t ht => hpre t (List.mem_cons_of_mem _ ht))
    refine ⟨⟨j'⟩ :: pre'', by simp [hlen], ?_⟩
    rw [List.cons_append]
    unfold runPass
    rw [hj', hrun]
    rfl

/-- C2: if source extraction fails for a function step (the first failing
one in processing order), the whole pass halts with the extraction error:
`processTypeScriptStep` throws, `processWorkflowSteps` propagates the
exception, the failing job and every job after it keep their original steps
(no step after the failing one is processed or replaced — the result does
not depend on `safter`/`post` at all), and serialization never runs: the
pipeline emits no output. -/
theorem extraction_failure_halts (env : ExtractEnv)
    (esbuild : Option (String → EsbuildResult))
    (tsc : String → String × Option String)
    (serialize : WorkflowState → String) (w : WorkflowState)
    (pre post : List JobState) (sbefore safter : List StepState) (fs : StepState)
    (tsData : TypeScriptFn × List ArgValue × Option TsStepOptions × Option String)
    (hsetup : addSetupActionsToWorkflow w =
      .ok ⟨pre ++ ⟨sbefore ++ fs :: safter⟩ :: post⟩)
    (hpre : ∀ j ∈ pre, ∃ j', processSteps env esbuild tsc j.steps = .ok j')
    (hsb : ∀ s ∈ sbefore, ∃ s', processStep env esbuild tsc s = .ok s')
    (hts : Step.getTypeScriptFunction fs = some tsData)
    (hfail : extractTypeScriptFunction env tsData.1 tsData.2.2.2 = none) :
    ∃ pre', pre'.length = pre.length ∧
      processWorkflowSteps env esbuild tsc w =
        (⟨pre' ++ ⟨sbefore ++ fs :: safter⟩ :: post⟩, some extractFailMsg) ∧
      synthesizePipeline env esbuild tsc serialize w = none := by
  have hfj : processSteps env esbuild tsc
      (⟨sbefore ++ fs :: safter⟩ : JobState).steps = .error extractFailMsg :=
    processSteps_fails_at env esbuild tsc sbefore safter fs tsData hsb hts hfail
  obtain ⟨pre', hlen, hrun⟩ :=
    runPass_halts env esbuild tsc pre post ⟨sbefore ++ fs :: safter⟩ hpre hfj
  refine ⟨pre', hlen, ?_, ?_⟩
  · unfold processWorkflowSteps
    rw [hsetup]
    simp only [hrun]
  · unfold synthesizePipeline processWorkflowSteps
    rw [hsetup]
    simp only [hrun]

/-- C2 witness: a workflow with one job holding one function step whose
extraction fails (its stack trace yields no existing file); the setup
detector prepends a setup step first, which processes fine, and the pass
halts at the function step with no output. -/
theorem extraction_failure_halts_witness :
    processWorkflowSteps
        ⟨fun _ => "", fun _ => false, fun _ => .error "ENOENT",
         fun _ _ => [], fun _ => "", fun _ => 0, ""⟩
        none (fun s => (s, none))
        ⟨[⟨[Step.runTypeScript stepNew ⟨0, "f"⟩ none [] none]⟩]⟩ =
      (⟨[⟨[setupNodeStep "24",
          Step.runTypeScript stepNew ⟨0, "f"⟩ none [] none]⟩]⟩,
       some extractFailMsg) ∧
    synthesizePipeline
        ⟨fun _ => "", fun _ => false, fun _ => .error "ENOENT",
         fun _ _ => [], fun _ => "", fun _ => 0, ""⟩
        none (fun s => (s, none)) (fun _ => "")
        ⟨[⟨[Step.runTypeScript stepNew ⟨0, "f"⟩ none [] none]⟩]⟩ = none := by
  obtain ⟨pre', hlen, hmain, hpipe⟩ := extraction_failure_halts
    ⟨fun _ => "", fun _ => false, fun _ => .error "ENOENT",
     fun _ _ => [], fun _ => "", fun _ => 0, ""⟩
    none (fun s => (s, none)) (fun _ => "")
    ⟨[⟨[Step.runTypeScript stepNew ⟨0, "f"⟩ none [] none]⟩]⟩
    [] [] [setupNodeStep "24"] []
    (Step.runTypeScript stepNew ⟨0, "f"⟩ none [] none)
    (⟨0, "f"⟩, [], none, none)
    (by rfl)
    (by intro j hj; exact absurd hj (List.not_mem_nil j))
    (by
      intro s hs
      rw [List.mem_singleton] at hs
      subst hs
      exact ⟨setupNodeStep "24", rfl⟩)
    (by rfl)
    (by rfl)
  have hpre' : pre' = [] := List.length_eq_zero.mp hlen
  subst hpre'
  exact ⟨hmain, hpipe⟩

end TsActions
